import Mathlib

set_option maxRecDepth 8000

namespace Tract

/-!
Shallow embedding of `src/core/src/ops/cnn/patches.rs` (the patch/window
indexing engine).

Machine-integer conventions of the embedding:
* `usize` values are `Nat`, `isize` values are `Int`.
* The cast `usize as isize`, which the source applies to shapes, strides and
  coordinates, is modelled as the exact coercion; theorems whose truth depends
  on it carry explicit realistic-size hypotheses.
* The cast `isize as usize`, which the source applies to possibly negative
  quantities, is modelled exactly as two's-complement wrapping (`usizeOfIsize`).
* `usize` subtraction that can underflow (a panic in a debug build) and other
  panics (index out of bounds, `unwrap` of `None`, assertion failures,
  division by zero) are modelled as `Option` failures: a `none` result of a
  builder or accessor models a panic.
-/

def W64 : Nat := 2 ^ 64

/-- `isize as usize`: two's-complement wrap into `0 .. 2^64`. -/
def usizeOfIsize (v : Int) : Nat := (v % (W64 : Int)).toNat

/-- `usize` subtraction; underflow is a panic (modelled as `none`). -/
def checkedSub (a b : Nat) : Option Nat := if b ≤ a then some (a - b) else none

/-- `usize::div_ceil`; division by zero is a panic (modelled as `none`). -/
def divCeil? (a b : Nat) : Option Nat := if b = 0 then none else some ((a + b - 1) / b)

/-- `Iterator::min` on a list of `isize` values. -/
def listMin? : List Int → Option Int
  | [] => none
  | x :: xs => some (match listMin? xs with | none => x | some m => min x m)

/-- `Iterator::max` on a list of `isize` values. -/
def listMax? : List Int → Option Int
  | [] => none
  | x :: xs => some (match listMax? xs with | none => x | some m => max x m)

/-- `ndarray::indices(shape)`: row-major enumeration of the Cartesian product
`0..shape[0] × ... × 0..shape[n-1]` (first axis slowest). -/
def cartesian : List Nat → List (List Nat)
  | [] => [[]]
  | n :: rest => (List.range n).flatMap fun i => (cartesian rest).map (i :: ·)

/-- Dot product over zipped lists (Rust `zip` truncates to the shorter list). -/
def dot (a b : List Int) : Int := ((a.zip b).map fun p => p.1 * p.2).sum

/-- Modelled from the spec: the symbolic padding policy consumed by
`PatchSpec::into_patch`.  The concrete `PaddingSpec` enum lives outside the
excerpted sources (`src/` only contains its caller); §6 of the spec lists its
variants: explicit per-axis before/after amounts, "valid", and the two
"same" policies. -/
inductive PaddingSpec where
  | Explicit (bef aft : List Nat)
  | Valid
  | SameUpper
  | SameLower
deriving DecidableEq

/-- One axis of the geometry resolver's result: `(output, pad_before, pad_after)`. -/
structure CnnDim where
  output : Nat
  pad_before : Nat
  pad_after : Nat
deriving DecidableEq

/-- Modelled from the spec: per-axis geometry resolution
(`PaddingSpec::compute`, an external collaborator not under `src/`).
Spec §6: maps `(input_extent, kernel_extent, dilation, stride, policy)` to
`(output_extent, pad_before, pad_after)`; "valid" shrinks the output
(spec §8: `output = (input - dilated_kernel)/stride + 1`), explicit padding
enlarges the input by the given amounts before applying the same formula,
and the "same" policies preserve `output = ceil(input/stride)` with a
parity-dependent asymmetric pad, the extra unit placed after (`SameUpper`)
or before (`SameLower`). -/
def PaddingSpec.computeOne (p : PaddingSpec) (ix input k d s : Nat) : CnnDim :=
  let dk := (k - 1) * d + 1
  match p with
  | .Valid => ⟨if input < dk then 0 else (input - dk) / s + 1, 0, 0⟩
  | .Explicit bef aft =>
    let b := bef.getD ix 0
    let a := aft.getD ix 0
    ⟨if input + b + a < dk then 0 else (input + b + a - dk) / s + 1, b, a⟩
  | .SameUpper =>
    let out := (input + s - 1) / s
    let pad := (out - 1) * s + dk - input
    ⟨out, pad / 2, pad - pad / 2⟩
  | .SameLower =>
    let out := (input + s - 1) / s
    let pad := (out - 1) * s + dk - input
    ⟨out, pad - pad / 2, pad / 2⟩

/-- Modelled from the spec: the resolver applied once per axis (spec §4.1
step 1). -/
def PaddingSpec.compute (p : PaddingSpec)
    (input kernel dilations strides : List Nat) : List CnnDim :=
  (List.range input.length).map fun ix =>
    p.computeOne ix (input.getD ix 0) (kernel.getD ix 0) (dilations.getD ix 0)
      (strides.getD ix 0)

/-- `PatchSpec` (patches.rs lines 12-21). -/
structure PatchSpec where
  input_shape : List Nat
  input_inner_stride : Nat
  output_inner_stride : Nat
  kernel_shape : List Nat
  strides : List Nat
  dilations : List Nat
  padding : PaddingSpec
deriving DecidableEq

/-- patches.rs lines 95-100: row-major layout strides of the input buffer,
innermost stride `input_inner_stride`. -/
def inputLayoutStrides (spec : PatchSpec) : List Int :=
  (spec.input_shape.drop 1).reverse.foldl
    (fun acc d => (Int.ofNat d * acc.headD 0) :: acc) [Int.ofNat spec.input_inner_stride]

/-- patches.rs lines 73-88: one row per kernel tap, in `ndarray::indices`
(row-major) order; entry for tap `t`, axis `ix` is
`t[ix] * dilations[ix] - pad_before[ix]`.  Out-of-range indexing of
`dilations` / `pad_before` is a panic (`none`). -/
def mkDataField (spec : PatchSpec) (pad_before : List Nat) : Option (List (List Int)) :=
  (cartesian spec.kernel_shape).mapM fun coords =>
    (List.range coords.length).mapM fun ix => do
      let d : Nat ← spec.dilations[ix]?
      let pb : Nat ← pad_before[ix]?
      pure (((coords.getD ix 0 * d : Nat) : Int) - (pb : Int))

/-- patches.rs lines 89-93: per column (axis), the min and max entry over all
taps; `unwrap` of an empty column's min/max is a panic (`none`). -/
def mkMinMax (ncols : Nat) (df : List (List Int)) : Option (List (Int × Int)) :=
  (List.range ncols).mapM fun ix => do
    let col := df.map fun row => row.getD ix 0
    let mn ← listMin? col
    let mx ← listMax? col
    pure (mn, mx)

/-- patches.rs lines 108-112 (and the `output[ix]` read of line 121), per
axis: the valid output range bounds `min`/`max` and the output extent.
`min = ((-min_offset) as usize).div_ceil(strides[ix])`,
`max = (input_shape[ix] - max_offset as usize).div_ceil(strides[ix])`. -/
def mkAxisData (spec : PatchSpec) (dfmm : List (Int × Int)) (output : List Nat) :
    Option (List (Nat × Nat × Nat)) :=
  (List.range spec.input_shape.length).mapM fun ix => do
    let mm ← dfmm[ix]?
    let s ← spec.strides[ix]?
    let mn ← divCeil? (usizeOfIsize (-mm.1)) s
    let sub ← checkedSub (spec.input_shape.getD ix 0) (usizeOfIsize mm.2)
    let mx ← divCeil? sub s
    let out ← output[ix]?
    pure (mn, mx, out)

/-- patches.rs lines 106-130: the zone-partition loop.  Per axis, in order:
emit the low shell `[0, min)` if `min ≠ 0`, then the high shell
`[max, output)` if `max < output`, each padded with the already-established
valid ranges on lower axes and full output ranges on higher axes; then push
`min..max` onto the valid zone.  `extra` holds the full ranges of output
axes beyond the input rank (the source pads shells up to `output.len()`). -/
def zoneFold (extra : List (Nat × Nat)) :
    List (Nat × Nat × Nat) → List (Nat × Nat) → List (List (Nat × Nat)) →
      List (Nat × Nat) × List (List (Nat × Nat))
  | [], vz, izs => (vz, izs)
  | (mn, mx, out) :: rest, vz, izs =>
    let restFull := (rest.map fun t => ((0 : Nat), t.2.2)) ++ extra
    let izs1 := if mn ≠ 0 then izs ++ [vz ++ (0, mn) :: restFull] else izs
    let izs2 := if mx < out then izs1 ++ [vz ++ (mx, out) :: restFull] else izs1
    zoneFold extra rest (vz ++ [(mn, mx)]) izs2

/-- `Patch` (patches.rs lines 151-164).  `Range<usize>` is a `Nat × Nat`
(start, end); `data_field` keeps its `Array2` rows. -/
structure Patch where
  spec : PatchSpec
  pad_before : List Nat
  pad_after : List Nat
  padded : Bool
  output_shape : List Nat
  data_field : List (List Int)
  data_field_min_max : List (Int × Int)
  standard_layout_data_field : List Int
  op_strides_times_input_storage_strides : List Int
  valid_output_zone : List (Nat × Nat)
  invalid_output_zones : List (List (Nat × Nat))
deriving DecidableEq

/-- `PatchSpec::into_patch` (patches.rs lines 62-148), parametrised by the
geometry resolver's result `dims` (the value of `self.padding.compute(..)`).
A `none` models a panic during construction. -/
def intoPatchWith (spec : PatchSpec) (dims : List CnnDim) : Option Patch := do
  let output := dims.map (·.output)
  let pad_before := dims.map (·.pad_before)
  let pad_after := dims.map (·.pad_after)
  let df ← mkDataField spec pad_before
  let dfmm ← mkMinMax spec.kernel_shape.length df
  let ils := inputLayoutStrides spec
  let sldf := df.map fun row => dot row ils
  let ax ← mkAxisData spec dfmm output
  let extra := (output.drop spec.input_shape.length).map fun o => ((0 : Nat), o)
  let vzizs := zoneFold extra ax [] []
  let ops := (spec.strides.zip ils).map fun p => (p.1 : Int) * p.2
  some
    { spec := spec
      padded := pad_before.any (· ≠ 0) || pad_after.any (· ≠ 0)
      pad_before := pad_before
      pad_after := pad_after
      output_shape := output
      data_field := df
      data_field_min_max := dfmm
      standard_layout_data_field := sldf
      op_strides_times_input_storage_strides := ops
      valid_output_zone := vzizs.1
      invalid_output_zones := vzizs.2 }

/-- `PatchSpec::into_patch` with the (spec-modelled) resolver plugged in, as
in the source's call `self.padding.compute(..)`. -/
def PatchSpec.into_patch (spec : PatchSpec) : Option Patch :=
  intoPatchWith spec
    (spec.padding.compute spec.input_shape spec.kernel_shape spec.dilations spec.strides)

def Patch.rank (p : Patch) : Nat := p.spec.input_shape.length

/-- `Patch::is_valid` (patches.rs lines 171-184).  The source's
`get_unchecked` reads are modelled with `getD` (claims always supply
coordinates of matching rank). -/
def Patch.is_valid (p : Patch) (coords : List Nat) : Bool :=
  (List.range p.rank).all fun ix =>
    let pos : Int := (coords.getD ix 0 : Int) * (p.spec.strides.getD ix 0 : Int)
    let mm := p.data_field_min_max.getD ix (0, 0)
    !(decide (pos + mm.1 < 0) || decide (pos + mm.2 ≥ (p.spec.input_shape.getD ix 0 : Int)))

/-- `Patch::visit_zone_d` (patches.rs lines 213-226): the zone shape is
computed by the usize subtractions `z.end - z.start` (line 218), a panic
(`none`) in a debug build when a range is degenerate; otherwise the
row-major enumeration of the zone's coordinates, each shifted by the zone
start and paired with the hint. -/
def visit_zone_d (zone : List (Nat × Nat)) (valid_hint : Option Bool) :
    Option (List (List Nat × Option Bool)) := do
  let shape ← zone.mapM fun z => checkedSub z.2 z.1
  pure ((cartesian shape).map fun coords =>
    ((coords.zip zone).map fun p => p.1 + p.2.1, valid_hint))

/-- `Patch::visit_valid_d` (patches.rs lines 256-258). -/
def visit_valid_d (p : Patch) : Option (List (List Nat × Option Bool)) :=
  visit_zone_d p.valid_output_zone (some true)

/-- `Patch::visit_invalid_d` (patches.rs lines 260-262), fully consumed (a
panic in any shell propagates). -/
def visit_invalid_d (p : Patch) : Option (List (List Nat × Option Bool)) := do
  let ls ← p.invalid_output_zones.mapM fun z => visit_zone_d z (some false)
  pure ls.flatten

/-- `Patch::visit_all_d` (patches.rs lines 252-254), fully consumed. -/
def visit_all_d (p : Patch) : Option (List (List Nat × Option Bool)) := do
  let v ← visit_valid_d p
  let iv ← visit_invalid_d p
  pure (v ++ iv)

/-- `FastPatchIterator` (patches.rs lines 334-349): the full yielded sequence,
one item per tap. -/
def fastItems (p : Patch) (center : Int) : List (Option Int) :=
  p.standard_layout_data_field.map fun f => some (center + f)

/-- One step of `SafePatchIterator::next` (patches.rs lines 359-385).  The
raw-pointer read of `data_field` row `item` is the flat row-major buffer at
`item * input_shape.len() + ix`. -/
def safeItem (p : Patch) (ipc : List Nat) (center : Int) (item : Nat) : Option Int :=
  if (List.range p.spec.input_shape.length).any (fun ix =>
      let pos : Int := (ipc.getD ix 0 : Int) +
        p.data_field.flatten.getD (item * p.spec.input_shape.length + ix) 0
      decide (pos < 0) || decide (pos ≥ (p.spec.input_shape.getD ix 0 : Int)))
  then none
  else some (center + p.standard_layout_data_field.getD item 0)

/-- `SafePatchIterator` (patches.rs lines 359-385): the full yielded sequence,
one item per tap, each tap range-tested independently. -/
def safeItems (p : Patch) (ipc : List Nat) (center : Int) : List (Option Int) :=
  (List.range p.standard_layout_data_field.length).map (safeItem p ipc center)

/-- patches.rs lines 280-284: `input_patch_center`, the coordinate multiplied
pointwise by the strides (`zip` leaves entries beyond `strides.len()`
untouched, hence the default multiplier 1). -/
def mulStrides (coords strides : List Nat) : List Nat :=
  coords.enum.map fun q => q.2 * strides.getD q.1 1

/-- `Patch::at_hint` (patches.rs lines 268-293).  `none` models the
`assert_eq!(coords.len(), kernel_shape.len())` failure.  The result is the
sequence the returned iterator yields. -/
def Patch.at_hint (p : Patch) (coords : List Nat) (hint : Option Bool) :
    Option (List (Option Int)) :=
  if coords.length = p.spec.kernel_shape.length then
    let center := ((List.range p.op_strides_times_input_storage_strides.length).map
      fun i => p.op_strides_times_input_storage_strides.getD i 0 *
        (coords.getD i 0 : Int)).sum
    let valid := hint.getD (!p.padded || p.is_valid coords)
    if valid then some (fastItems p center)
    else some (safeItems p (mulStrides coords p.spec.strides) center)
  else none

/-- `Patch::at` (patches.rs lines 264-266). -/
def Patch.at (p : Patch) (coords : List Nat) : Option (List (Option Int)) :=
  p.at_hint coords none

/-- `Patch::global_offset_for` (patches.rs lines 295-301): no bounds check;
the signed flat offset is cast `as usize` (two's-complement).  `none` models
the assertion / index panic. -/
def Patch.global_offset_for (p : Patch) (coords : List Nat) (patch_index : Nat) :
    Option Nat :=
  if coords.length = p.spec.kernel_shape.length then do
    let center := ((coords.zip p.op_strides_times_input_storage_strides).map
      fun q => (q.1 : Int) * q.2).sum
    let f ← p.standard_layout_data_field[patch_index]?
    pure (usizeOfIsize (center + f))
  else none

/-- Membership of an output coordinate in an axis-aligned zone (pointwise,
with matching rank). -/
def inZone (coords : List Nat) (zone : List (Nat × Nat)) : Bool :=
  (coords.length == zone.length) &&
    (coords.zip zone).all fun q => decide (q.2.1 ≤ q.1) && decide (q.1 < q.2.2)

/-- Membership of a coordinate in the output index space. -/
def inBox (coords outs : List Nat) : Bool :=
  (coords.length == outs.length) && (coords.zip outs).all fun q => decide (q.1 < q.2)

/-- How many of the zones of a patch (the valid zone and the invalid shells)
contain a coordinate. -/
def tileCount (p : Patch) (coords : List Nat) : Nat :=
  (if inZone coords p.valid_output_zone then 1 else 0) +
    p.invalid_output_zones.countP fun z => inZone coords z

/-- Strict lexicographic (row-major) order on coordinates. -/
def lexLt : List Nat → List Nat → Bool
  | [], [] => false
  | [], _ :: _ => true
  | _ :: _, [] => false
  | a :: as, b :: bs => decide (a < b) || ((a == b) && lexLt as bs)

/-! ### Generic helper lemmas -/

theorem mapM_eq_some_map {α β} (f : α → Option β) (g : α → β) :
    ∀ l : List α, (∀ x ∈ l, f x = some (g x)) → l.mapM f = some (l.map g) := by
  intro l
  induction l with
  | nil => intro _; rfl
  | cons a l ih =>
    intro h
    rw [List.mapM_cons, h a (by simp), ih fun x hx => h x (by simp [hx])]
    rfl

theorem mapM_some_length {α β} (f : α → Option β) :
    ∀ (l : List α) (ys : List β), l.mapM f = some ys → ys.length = l.length := by
  intro l
  induction l with
  | nil =>
    intro ys h
    simp only [List.mapM_nil, Option.pure_def, Option.some.injEq] at h
    simp [← h]
  | cons a l ih =>
    intro ys h
    simp only [List.mapM_cons, Option.pure_def, Option.bind_eq_bind, Option.bind_eq_some,
      Option.some.injEq] at h
    obtain ⟨b, _, bs, hbs, rfl⟩ := h
    simp [ih bs hbs]

theorem mapM_some_getD {α β} (f : α → Option β) (dα : α) (dβ : β) :
    ∀ (l : List α) (ys : List β), l.mapM f = some ys →
      ∀ i, i < l.length → f (l.getD i dα) = some (ys.getD i dβ) := by
  intro l
  induction l with
  | nil => intro ys h i hi; simp at hi
  | cons a l ih =>
    intro ys h i hi
    simp only [List.mapM_cons, Option.pure_def, Option.bind_eq_bind, Option.bind_eq_some,
      Option.some.injEq] at h
    obtain ⟨b, hb, bs, hbs, rfl⟩ := h
    cases i with
    | zero => simpa using hb
    | succ i => simpa using ih bs hbs i (by simpa using hi)

theorem listMin?_isSome : ∀ l : List Int, l ≠ [] → listMin? l = some ((listMin? l).getD 0)
  | [], h => absurd rfl h
  | _ :: _, _ => rfl

theorem listMax?_isSome : ∀ l : List Int, l ≠ [] → listMax? l = some ((listMax? l).getD 0)
  | [], h => absurd rfl h
  | _ :: _, _ => rfl

theorem listMin?_mem : ∀ (l : List Int) (m : Int), listMin? l = some m → m ∈ l := by
  intro l
  induction l with
  | nil => intro m h; cases h
  | cons x xs ih =>
    intro m h
    simp only [listMin?, Option.some.injEq] at h
    cases hxs : listMin? xs with
    | none =>
      rw [hxs] at h
      have h' : x = m := h
      simp [← h']
    | some m' =>
      rw [hxs] at h
      have h' : min x m' = m := h
      rcases min_choice x m' with hc | hc <;> rw [hc] at h'
      · simp [← h']
      · exact List.mem_cons_of_mem _ (h' ▸ ih m' hxs)

theorem listMin?_le : ∀ (l : List Int) (m : Int), listMin? l = some m → ∀ x ∈ l, m ≤ x := by
  intro l
  induction l with
  | nil => intro m h; cases h
  | cons x xs ih =>
    intro m h y hy
    simp only [listMin?, Option.some.injEq] at h
    cases hxs : listMin? xs with
    | none =>
      rw [hxs] at h
      have h' : x = m := h
      cases xs with
      | nil => simp at hy; simp [← h', hy]
      | cons a as => exact absurd hxs (by simp [listMin?])
    | some m' =>
      rw [hxs] at h
      have h' : min x m' = m := h
      rcases List.mem_cons.1 hy with rfl | hy'
      · exact h' ▸ min_le_left _ _
      · exact le_trans (h' ▸ min_le_right x m') (ih m' hxs y hy')

theorem listMax?_mem : ∀ (l : List Int) (m : Int), listMax? l = some m → m ∈ l := by
  intro l
  induction l with
  | nil => intro m h; cases h
  | cons x xs ih =>
    intro m h
    simp only [listMax?, Option.some.injEq] at h
    cases hxs : listMax? xs with
    | none =>
      rw [hxs] at h
      have h' : x = m := h
      simp [← h']
    | some m' =>
      rw [hxs] at h
      have h' : max x m' = m := h
      rcases max_choice x m' with hc | hc <;> rw [hc] at h'
      · simp [← h']
      · exact List.mem_cons_of_mem _ (h' ▸ ih m' hxs)

theorem listMax?_ge : ∀ (l : List Int) (m : Int), listMax? l = some m → ∀ x ∈ l, x ≤ m := by
  intro l
  induction l with
  | nil => intro m h; cases h
  | cons x xs ih =>
    intro m h y hy
    simp only [listMax?, Option.some.injEq] at h
    cases hxs : listMax? xs with
    | none =>
      rw [hxs] at h
      have h' : x = m := h
      cases xs with
      | nil => simp at hy; simp [← h', hy]
      | cons a as => exact absurd hxs (by simp [listMax?])
    | some m' =>
      rw [hxs] at h
      have h' : max x m' = m := h
      rcases List.mem_cons.1 hy with rfl | hy'
      · exact h' ▸ le_max_left _ _
      · exact le_trans (ih m' hxs y hy') (h' ▸ le_max_right x m')

theorem cartesian_mem_iff : ∀ (shape c : List Nat),
    c ∈ cartesian shape ↔
      c.length = shape.length ∧ ∀ i < shape.length, c.getD i 0 < shape.getD i 0 := by
  intro shape
  induction shape with
  | nil =>
    intro c
    constructor
    · intro h; simp [cartesian] at h; simp [h]
    · intro ⟨h, _⟩; simp [cartesian, List.eq_nil_of_length_eq_zero h]
  | cons n rest ih =>
    intro c
    constructor
    · intro h
      simp only [cartesian, List.mem_flatMap, List.mem_map, List.mem_range] at h
      obtain ⟨i, hi, c', hc', rfl⟩ := h
      obtain ⟨hl, hp⟩ := (ih c').1 hc'
      refine ⟨by simp [hl], ?_⟩
      intro j hj
      cases j with
      | zero => simpa using hi
      | succ j => simpa using hp j (by simpa using hj)
    · intro ⟨hl, hp⟩
      cases c with
      | nil => simp at hl
      | cons x c' =>
        simp only [cartesian, List.mem_flatMap, List.mem_map, List.mem_range]
        refine ⟨x, by simpa using hp 0 (by simp), c', ?_, rfl⟩
        refine (ih c').2 ⟨by simpa using hl, ?_⟩
        intro i hi
        simpa using hp (i + 1) (by simpa using hi)

theorem cartesian_zeros_mem (shape : List Nat) (h : ∀ n ∈ shape, 0 < n) :
    List.replicate shape.length 0 ∈ cartesian shape := by
  rw [cartesian_mem_iff]
  refine ⟨by simp, ?_⟩
  intro i hi
  rw [List.getD_eq_getElem _ _ (by simpa using hi), List.getElem_replicate,
    List.getD_eq_getElem _ _ hi]
  exact h _ (List.getElem_mem hi)

theorem cartesian_top_mem (shape : List Nat) (h : ∀ n ∈ shape, 0 < n) :
    shape.map (· - 1) ∈ cartesian shape := by
  rw [cartesian_mem_iff]
  refine ⟨by simp, ?_⟩
  intro i hi
  rw [List.getD_eq_getElem _ _ (by simpa using hi), List.getElem_map,
    List.getD_eq_getElem _ _ hi]
  have := h _ (List.getElem_mem hi)
  omega

theorem lexLt_irrefl : ∀ a : List Nat, lexLt a a = false := by
  intro a
  induction a with
  | nil => rfl
  | cons x as ih => simp [lexLt, ih]

theorem cartesian_pairwise : ∀ shape : List Nat,
    (cartesian shape).Pairwise fun a b => lexLt a b = true := by
  intro shape
  induction shape with
  | nil => simp [cartesian]
  | cons n rest ih =>
    rw [cartesian, List.flatMap_def, List.pairwise_flatten]
    constructor
    · intro a ha
      simp only [List.mem_map, List.mem_range] at ha
      obtain ⟨i, _, rfl⟩ := ha
      exact ih.map _ fun a b hab => by simp [lexLt, hab]
    · refine (List.pairwise_lt_range n).map _ ?_
      intro i j hij x hx y hy
      simp only [List.mem_map] at hx hy
      obtain ⟨a, _, rfl⟩ := hx
      obtain ⟨b, _, rfl⟩ := hy
      simp [lexLt, hij]

theorem zip_all_iff {α β} (p : α × β → Bool) (dα : α) (dβ : β) :
    ∀ (a : List α) (b : List β), a.length = b.length →
      (((a.zip b).all p) = true ↔ ∀ i < b.length, p (a.getD i dα, b.getD i dβ) = true) := by
  intro a
  induction a with
  | nil =>
    intro b h
    cases b with
    | nil => simp
    | cons => simp at h
  | cons x xs ih =>
    intro b h
    cases b with
    | nil => simp at h
    | cons y ys =>
      simp only [List.zip_cons_cons, List.all_cons, Bool.and_eq_true, List.length_cons]
      constructor
      · rintro ⟨hx, ha⟩ i hi
        cases i with
        | zero => simpa using hx
        | succ i => simpa using ((ih ys (by simp at h; omega)).1 ha) i (by omega)
      · intro hp
        refine ⟨by simpa using hp 0 (by omega), (ih ys (by simpa using h)).2 ?_⟩
        intro i hi
        simpa using hp (i + 1) (by omega)

theorem inZone_iff (c : List Nat) (zone : List (Nat × Nat)) :
    inZone c zone = true ↔
      c.length = zone.length ∧
        ∀ i < zone.length,
          (zone.getD i (0, 0)).1 ≤ c.getD i 0 ∧ c.getD i 0 < (zone.getD i (0, 0)).2 := by
  simp only [inZone, Bool.and_eq_true, beq_iff_eq]
  constructor
  · rintro ⟨hl, ha⟩
    refine ⟨hl, fun i hi => ?_⟩
    have := (zip_all_iff _ 0 (0, 0) c zone hl).1 ha i hi
    simpa [Bool.and_eq_true, decide_eq_true_eq] using this
  · rintro ⟨hl, hp⟩
    refine ⟨hl, (zip_all_iff _ 0 (0, 0) c zone hl).2 fun i hi => ?_⟩
    simpa [Bool.and_eq_true, decide_eq_true_eq] using hp i hi

theorem inBox_iff (c outs : List Nat) :
    inBox c outs = true ↔
      c.length = outs.length ∧ ∀ i < outs.length, c.getD i 0 < outs.getD i 0 := by
  simp only [inBox, Bool.and_eq_true, beq_iff_eq]
  constructor
  · rintro ⟨hl, ha⟩
    refine ⟨hl, fun i hi => ?_⟩
    have := (zip_all_iff _ 0 0 c outs hl).1 ha i hi
    simpa [decide_eq_true_eq] using this
  · rintro ⟨hl, hp⟩
    refine ⟨hl, (zip_all_iff _ 0 0 c outs hl).2 fun i hi => ?_⟩
    simpa [decide_eq_true_eq] using hp i hi

theorem inZone_cons_iff (c : Nat) (cs : List Nat) (z : Nat × Nat) (zs : List (Nat × Nat)) :
    inZone (c :: cs) (z :: zs) = true ↔ z.1 ≤ c ∧ c < z.2 ∧ inZone cs zs = true := by
  simp only [inZone, List.zip_cons_cons, List.all_cons, List.length_cons, Bool.and_eq_true,
    beq_iff_eq, decide_eq_true_eq, add_left_inj]
  tauto

theorem inBox_cons_iff (c : Nat) (cs : List Nat) (o : Nat) (os : List Nat) :
    inBox (c :: cs) (o :: os) = true ↔ c < o ∧ inBox cs os = true := by
  simp only [inBox, List.zip_cons_cons, List.all_cons, List.length_cons, Bool.and_eq_true,
    beq_iff_eq, decide_eq_true_eq, add_left_inj]
  tauto

theorem inZone_append_iff (c1 c2 : List Nat) (z1 z2 : List (Nat × Nat))
    (h : c1.length = z1.length) :
    inZone (c1 ++ c2) (z1 ++ z2) = true ↔ inZone c1 z1 = true ∧ inZone c2 z2 = true := by
  simp only [inZone, List.zip_append h, List.all_append, List.length_append, Bool.and_eq_true,
    beq_iff_eq]
  constructor
  · rintro ⟨hl, ha, hb⟩
    exact ⟨⟨h, ha⟩, ⟨by omega, hb⟩⟩
  · rintro ⟨⟨h1, ha⟩, ⟨h2, hb⟩⟩
    exact ⟨by omega, ha, hb⟩

theorem inZone_zeroRanges (cs outs : List Nat) :
    inZone cs (outs.map fun o => ((0 : Nat), o)) = inBox cs outs := by
  rw [Bool.eq_iff_iff, inZone_iff, inBox_iff]
  simp only [List.length_map]
  constructor <;> rintro ⟨hl, hp⟩ <;> refine ⟨hl, fun i hi => ?_⟩
  · have := hp i hi
    rw [List.getD_eq_getElem _ _ (by simpa using hi), List.getElem_map,
      ← List.getD_eq_getElem outs 0 hi] at this
    exact this.2
  · rw [List.getD_eq_getElem _ _ (by simpa using hi), List.getElem_map,
      ← List.getD_eq_getElem outs 0 hi]
    exact ⟨Nat.zero_le _, hp i hi⟩

theorem inZone_length {c : List Nat} {z : List (Nat × Nat)} (h : inZone c z = true) :
    c.length = z.length := ((inZone_iff c z).1 h).1

theorem zoneFold_fst (extra : List (Nat × Nat)) :
    ∀ (ad : List (Nat × Nat × Nat)) (vz : List (Nat × Nat)) (izs : List (List (Nat × Nat))),
      (zoneFold extra ad vz izs).1 = vz ++ ad.map fun t => (t.1, t.2.1) := by
  intro ad
  induction ad with
  | nil => intro vz izs; simp [zoneFold]
  | cons t rest ih =>
    intro vz izs
    obtain ⟨mn, mx, out⟩ := t
    rw [zoneFold, ih]
    simp

/-- The central disjoint-tiling count for the zone-partition loop: processing
the axes of `ad` after an established valid prefix `vz`, a coordinate
`c1 ++ c2` (with `c2` inside the output box of the remaining axes) lands in
exactly one newly emitted shell iff its prefix is valid and its suffix is not
entirely valid — provided every remaining axis satisfies
`min ≤ max ∨ output ≤ max`. -/
theorem zoneFold_cons (extra : List (Nat × Nat)) (mn mx out : Nat)
    (rest : List (Nat × Nat × Nat)) (vz : List (Nat × Nat)) (izs : List (List (Nat × Nat))) :
    zoneFold extra ((mn, mx, out) :: rest) vz izs
      = zoneFold extra rest (vz ++ [(mn, mx)])
          (izs ++
            ((if mn ≠ 0 then [vz ++ (0, mn) :: ((rest.map fun t => ((0 : Nat), t.2.2)) ++ extra)]
              else []) ++
             (if mx < out then [vz ++ (mx, out) :: ((rest.map fun t => ((0 : Nat), t.2.2)) ++ extra)]
              else []))) := by
  rw [zoneFold]
  by_cases hmn : mn = 0 <;> by_cases hmx : mx < out <;> simp [hmn, hmx]

/-- The central disjoint-tiling count for the zone-partition loop: processing
the axes of `ad` after an established valid prefix `vz`, a coordinate
`c1 ++ c2` (with `c2` inside the output box of the remaining axes) lands in
exactly one newly emitted shell iff its prefix is valid and its suffix is not
entirely valid — provided every remaining axis satisfies
`min ≤ max ∨ output ≤ max`. -/
theorem zoneFold_count :
    ∀ (ad : List (Nat × Nat × Nat)) (vz : List (Nat × Nat)) (izs : List (List (Nat × Nat)))
      (c1 c2 : List Nat),
      c1.length = vz.length →
      inBox c2 (ad.map fun t => t.2.2) = true →
      (∀ t ∈ ad, t.1 ≤ t.2.1 ∨ t.2.2 ≤ t.2.1) →
      ((zoneFold [] ad vz izs).2.countP fun z => inZone (c1 ++ c2) z)
        = izs.countP (fun z => inZone (c1 ++ c2) z)
          + (if inZone c1 vz = true then
              (if inZone c2 (ad.map fun t => (t.1, t.2.1)) = true then 0 else 1) else 0) := by
  intro ad
  induction ad with
  | nil =>
    intro vz izs c1 c2 h1 h2 _
    have hc2 : c2 = [] := by
      have := ((inBox_iff c2 []).1 (by simpa using h2)).1
      exact List.eq_nil_of_length_eq_zero (by simpa using this)
    subst hc2
    by_cases hA : inZone c1 vz = true <;> simp [zoneFold, hA, inZone]
  | cons t rest ih =>
    intro vz izs c1 c2 h1 h2 hside
    obtain ⟨mn, mx, out⟩ := t
    cases c2 with
    | nil =>
      have := ((inBox_iff [] _).1 h2).1
      simp at this
    | cons c cs =>
      have hbox := (inBox_cons_iff c cs out (rest.map fun t => t.2.2)).1 (by simpa using h2)
      have hc : c < out := hbox.1
      have hcs : inBox cs (rest.map fun t => t.2.2) = true := hbox.2
      rw [zoneFold_cons]
      simp only [List.append_nil]
      have happ : (c1 ++ [c]) ++ cs = c1 ++ c :: cs := by simp
      have ihh := ih (vz ++ [(mn, mx)])
        (izs ++
          ((if mn ≠ 0 then [vz ++ (0, mn) :: rest.map fun t => ((0 : Nat), t.2.2)] else []) ++
           (if mx < out then [vz ++ (mx, out) :: rest.map fun t => ((0 : Nat), t.2.2)] else [])))
        (c1 ++ [c]) cs (by simp [h1]) hcs (fun t ht => hside t (by simp [ht]))
      rw [happ] at ihh
      rw [ihh]
      clear ihh ih
      rw [List.countP_append]
      -- membership facts for the two candidate shells
      have hzero : inZone cs (rest.map fun t => ((0 : Nat), t.2.2)) = true := by
        have hmm : (rest.map fun t => ((0 : Nat), t.2.2))
            = (rest.map fun t => t.2.2).map fun o => ((0 : Nat), o) := by
          simp [List.map_map, Function.comp]
        rw [hmm, inZone_zeroRanges]
        exact hcs
      have hPre : ∀ lo hi : Nat,
          inZone (c1 ++ c :: cs) (vz ++ (lo, hi) :: rest.map fun t => ((0 : Nat), t.2.2))
            = (inZone c1 vz && (decide (lo ≤ c) && decide (c < hi))) := by
        intro lo hi
        rw [Bool.eq_iff_iff, inZone_append_iff _ _ _ _ h1, inZone_cons_iff]
        simp [hzero, Bool.and_eq_true, decide_eq_true_eq, and_assoc]
      have hVZ : inZone (c1 ++ [c]) (vz ++ [(mn, mx)])
          = (inZone c1 vz && (decide (mn ≤ c) && decide (c < mx))) := by
        rw [Bool.eq_iff_iff, inZone_append_iff _ _ _ _ h1, inZone_cons_iff]
        simp [inZone, Bool.and_eq_true, decide_eq_true_eq, and_assoc]
      have hTail : inZone (c :: cs) ((mn, mx) :: rest.map fun t => (t.1, t.2.1))
          = ((decide (mn ≤ c) && decide (c < mx))
              && inZone cs (rest.map fun t => (t.1, t.2.1))) := by
        rw [Bool.eq_iff_iff, inZone_cons_iff]
        simp [Bool.and_eq_true, decide_eq_true_eq, and_assoc]
      have hSide : mn ≤ mx ∨ out ≤ mx := by simpa using hside (mn, mx, out) (by simp)
      rw [hVZ, List.map_cons]
      have hmapfst : (((mn, mx, out).1, (mn, mx, out).2.1) : Nat × Nat) = (mn, mx) := rfl
      rw [hmapfst, hTail]
      have hNew1 : (List.countP (fun z => inZone (c1 ++ c :: cs) z)
            (if mn ≠ 0 then [vz ++ (0, mn) :: rest.map fun t => ((0 : Nat), t.2.2)] else []))
          = (if mn ≠ 0 then
              (if inZone (c1 ++ c :: cs)
                  (vz ++ (0, mn) :: rest.map fun t => ((0 : Nat), t.2.2)) = true
               then 1 else 0) else 0) := by
        by_cases hmn : mn = 0 <;> simp [hmn, List.countP_cons]
      have hNew2 : (List.countP (fun z => inZone (c1 ++ c :: cs) z)
            (if mx < out then [vz ++ (mx, out) :: rest.map fun t => ((0 : Nat), t.2.2)] else []))
          = (if mx < out then
              (if inZone (c1 ++ c :: cs)
                  (vz ++ (mx, out) :: rest.map fun t => ((0 : Nat), t.2.2)) = true
               then 1 else 0) else 0) := by
        by_cases hmx : mx < out <;> simp [hmx, List.countP_cons]
      rw [List.countP_append, hNew1, hNew2]
      rw [hPre 0 mn]
      rw [hPre mx out]
      simp only [Bool.and_eq_true, decide_eq_true_eq]
      clear hNew1 hNew2 hPre hVZ hTail hzero h2 hbox hcs happ hside h1
      by_cases hA : inZone c1 vz = true <;>
        by_cases hB : inZone cs (rest.map fun t => (t.1, t.2.1)) = true <;>
          simp only [hA, hB, Nat.zero_le, true_and, and_true, false_and, and_false,
            if_true, if_false] <;>
          split_ifs <;> first | omega | simp_all

theorem range_getD {n i : Nat} (hi : i < n) : (List.range n).getD i 0 = i := by
  rw [List.getD_eq_getElem _ _ (by simpa using hi)]
  simp

theorem map_getD {α β} (f : α → β) (l : List α) (dα : α) (dβ : β) {i : Nat}
    (hi : i < l.length) : (l.map f).getD i dβ = f (l.getD i dα) := by
  rw [List.getD_eq_getElem _ _ (by simpa using hi), List.getElem_map,
    List.getD_eq_getElem _ _ hi]

/-- Unfolding a successful `intoPatchWith` into its stages. -/
theorem intoPatchWith_inv {spec : PatchSpec} {dims : List CnnDim} {p : Patch}
    (h : intoPatchWith spec dims = some p) :
    ∃ df dfmm ax,
      mkDataField spec (dims.map (·.pad_before)) = some df ∧
      mkMinMax spec.kernel_shape.length df = some dfmm ∧
      mkAxisData spec dfmm (dims.map (·.output)) = some ax ∧
      p = { spec := spec
            padded := (dims.map (·.pad_before)).any (· ≠ 0) || (dims.map (·.pad_after)).any (· ≠ 0)
            pad_before := dims.map (·.pad_before)
            pad_after := dims.map (·.pad_after)
            output_shape := dims.map (·.output)
            data_field := df
            data_field_min_max := dfmm
            standard_layout_data_field := df.map fun row => dot row (inputLayoutStrides spec)
            op_strides_times_input_storage_strides :=
              (spec.strides.zip (inputLayoutStrides spec)).map fun q => (q.1 : Int) * q.2
            valid_output_zone :=
              (zoneFold (((dims.map (·.output)).drop spec.input_shape.length).map
                fun o => ((0 : Nat), o)) ax [] []).1
            invalid_output_zones :=
              (zoneFold (((dims.map (·.output)).drop spec.input_shape.length).map
                fun o => ((0 : Nat), o)) ax [] []).2 } := by
  simp only [intoPatchWith, Option.bind_eq_bind, Option.bind_eq_some, Option.some.injEq] at h
  obtain ⟨df, hdf, dfmm, hdfmm, ax, hax, hp⟩ := h
  exact ⟨df, dfmm, ax, hdf, hdfmm, hax, hp.symm⟩

/-- Per-axis content of a successful `mkAxisData`. -/
theorem mkAxisData_get {spec : PatchSpec} {dfmm : List (Int × Int)} {output : List Nat}
    {ax : List (Nat × Nat × Nat)} (h : mkAxisData spec dfmm output = some ax)
    (i : Nat) (hi : i < spec.input_shape.length) :
    ∃ mm s sub,
      dfmm[i]? = some mm ∧ spec.strides[i]? = some s ∧ s ≠ 0 ∧
      checkedSub (spec.input_shape.getD i 0) (usizeOfIsize mm.2) = some sub ∧
      output[i]? = some (ax.getD i (0, 0, 0)).2.2 ∧
      (ax.getD i (0, 0, 0)).1 = (usizeOfIsize (-mm.1) + s - 1) / s ∧
      (ax.getD i (0, 0, 0)).2.1 = (sub + s - 1) / s := by
  have hf := mapM_some_getD _ 0 (0, 0, 0) _ _ h i (by simpa using hi)
  rw [range_getD hi] at hf
  simp only [divCeil?, Option.bind_eq_bind, Option.bind_eq_some, Option.some.injEq] at hf
  obtain ⟨mm, hmm, s, hs, mn, hmn, sub, hsub, mx, hmx, out, hout, heq⟩ := hf
  rcases Decidable.em (s = 0) with h0 | h0
  · rw [if_pos h0] at hmn; cases hmn
  · rw [if_neg h0] at hmn hmx
    have heq2 : (mn, mx, out) = ax.getD i (0, 0, 0) := by simpa using heq
    refine ⟨mm, s, sub, hmm, hs, h0, hsub, ?_, ?_, ?_⟩
    · rw [hout, ← heq2]
    · rw [← heq2]
      exact (Option.some.inj hmn).symm
    · rw [← heq2]
      exact (Option.some.inj hmx).symm

theorem mkAxisData_length {spec : PatchSpec} {dfmm : List (Int × Int)} {output : List Nat}
    {ax : List (Nat × Nat × Nat)} (h : mkAxisData spec dfmm output = some ax) :
    ax.length = spec.input_shape.length := by
  simpa using mapM_some_length _ _ _ h

/-! ### Data-field closed forms -/

/-- The row the data-field builder produces for tap `t` (ranks aligned). -/
def tapRow (spec : PatchSpec) (pad_before : List Nat) (t : List Nat) : List Int :=
  (List.range t.length).map fun ix =>
    ((t.getD ix 0 * spec.dilations.getD ix 0 : Nat) : Int) - (pad_before.getD ix 0 : Int)

theorem tapRow_getD (spec : PatchSpec) (pad_before : List Nat) (t : List Nat)
    {ix : Nat} (hix : ix < t.length) :
    (tapRow spec pad_before t).getD ix 0
      = ((t.getD ix 0 * spec.dilations.getD ix 0 : Nat) : Int) - (pad_before.getD ix 0 : Int) := by
  rw [tapRow, map_getD _ _ 0 _ (by simpa using hix), range_getD hix]

theorem tapRow_length (spec : PatchSpec) (pad_before : List Nat) (t : List Nat) :
    (tapRow spec pad_before t).length = t.length := by
  simp [tapRow]

theorem mkDataField_eq (spec : PatchSpec) (pad_before : List Nat)
    (hd : spec.kernel_shape.length ≤ spec.dilations.length)
    (hp : spec.kernel_shape.length ≤ pad_before.length) :
    mkDataField spec pad_before
      = some ((cartesian spec.kernel_shape).map (tapRow spec pad_before)) := by
  apply mapM_eq_some_map
  intro t ht
  have hlen : t.length = spec.kernel_shape.length := ((cartesian_mem_iff _ _).1 ht).1
  apply mapM_eq_some_map
  intro ix hix
  rw [List.mem_range] at hix
  rw [List.getElem?_eq_getElem (by omega), List.getElem?_eq_getElem (by omega)]
  simp only [Option.bind_eq_bind, Option.some_bind, Option.pure_def, Option.some.injEq]
  rw [List.getD_eq_getElem spec.dilations 0 (by omega),
    List.getD_eq_getElem pad_before 0 (by omega)]

/-- The per-axis `(min, max)` of the data field: the tap at the origin gives
the minimum `-pad_before[ix]`, the tap at the far corner gives the maximum
`(kernel[ix] - 1) * dilation[ix] - pad_before[ix]`. -/
theorem mkMinMax_eq (spec : PatchSpec) (pad_before : List Nat)
    (hk : ∀ n ∈ spec.kernel_shape, 0 < n)
    (hd : spec.kernel_shape.length ≤ spec.dilations.length)
    (hp : spec.kernel_shape.length ≤ pad_before.length) :
    mkMinMax spec.kernel_shape.length ((cartesian spec.kernel_shape).map (tapRow spec pad_before))
      = some ((List.range spec.kernel_shape.length).map fun ix =>
          (-(pad_before.getD ix 0 : Int),
            ((spec.kernel_shape.getD ix 0 - 1 : Nat) : Int) * (spec.dilations.getD ix 0 : Nat)
              - (pad_before.getD ix 0 : Int))) := by
  apply mapM_eq_some_map
  intro ix hix0
  rw [List.mem_range] at hix0
  -- the column and its entries
  have hcol : ∀ x, x ∈ (((cartesian spec.kernel_shape).map (tapRow spec pad_before)).map
      fun row => row.getD ix 0) ↔
        ∃ t ∈ cartesian spec.kernel_shape,
          x = ((t.getD ix 0 * spec.dilations.getD ix 0 : Nat) : Int)
              - (pad_before.getD ix 0 : Int) := by
    intro x
    simp only [List.map_map, List.mem_map, Function.comp]
    constructor
    · rintro ⟨t, ht, rfl⟩
      have hlen : t.length = spec.kernel_shape.length := ((cartesian_mem_iff _ _).1 ht).1
      exact ⟨t, ht, tapRow_getD spec pad_before t (by omega)⟩
    · rintro ⟨t, ht, rfl⟩
      have hlen : t.length = spec.kernel_shape.length := ((cartesian_mem_iff _ _).1 ht).1
      exact ⟨t, ht, tapRow_getD spec pad_before t (by omega)⟩
  have hzero := cartesian_zeros_mem spec.kernel_shape hk
  have htop := cartesian_top_mem spec.kernel_shape hk
  -- value at the zero tap
  have hzval : ((-(pad_before.getD ix 0 : Int))) ∈
      (((cartesian spec.kernel_shape).map (tapRow spec pad_before)).map
        fun row => row.getD ix 0) := by
    rw [hcol]
    refine ⟨_, hzero, ?_⟩
    have hrep : (List.replicate spec.kernel_shape.length (0 : Nat)).getD ix 0 = 0 := by
      rw [List.getD_eq_getElem _ _ (by simpa using hix0)]
      simp
    rw [hrep]
    simp
  -- value at the far-corner tap
  have htval : (((spec.kernel_shape.getD ix 0 - 1 : Nat) : Int)
        * (spec.dilations.getD ix 0 : Nat) - (pad_before.getD ix 0 : Int)) ∈
      (((cartesian spec.kernel_shape).map (tapRow spec pad_before)).map
        fun row => row.getD ix 0) := by
    rw [hcol]
    refine ⟨_, htop, ?_⟩
    rw [map_getD _ _ 0 _ hix0]
    push_cast
    ring
  -- all entries are between the two
  have hbound : ∀ x ∈ (((cartesian spec.kernel_shape).map (tapRow spec pad_before)).map
      fun row => row.getD ix 0),
        (-(pad_before.getD ix 0 : Int)) ≤ x ∧
          x ≤ ((spec.kernel_shape.getD ix 0 - 1 : Nat) : Int) * (spec.dilations.getD ix 0 : Nat)
            - (pad_before.getD ix 0 : Int) := by
    intro x hx
    rw [hcol] at hx
    obtain ⟨t, ht, rfl⟩ := hx
    obtain ⟨hlen, hlt⟩ := (cartesian_mem_iff _ _).1 ht
    have h1 : t.getD ix 0 < spec.kernel_shape.getD ix 0 := hlt ix hix0
    constructor
    · have : (0 : Int) ≤ ((t.getD ix 0 * spec.dilations.getD ix 0 : Nat) : Int) := by
        positivity
      omega
    · have h2 : t.getD ix 0 * spec.dilations.getD ix 0
          ≤ (spec.kernel_shape.getD ix 0 - 1) * spec.dilations.getD ix 0 :=
        Nat.mul_le_mul_right _ (by omega)
      have h3 : ((t.getD ix 0 * spec.dilations.getD ix 0 : Nat) : Int)
          ≤ (((spec.kernel_shape.getD ix 0 - 1) * spec.dilations.getD ix 0 : Nat) : Int) := by
        exact_mod_cast h2
      push_cast at h3 ⊢
      omega
  -- min and max are attained
  dsimp only
  set col := (((cartesian spec.kernel_shape).map (tapRow spec pad_before)).map
    fun row => row.getD ix 0) with hcoldef
  have hne : col ≠ [] := by
    intro hnil
    rw [hnil] at hzval
    cases hzval
  rw [listMin?_isSome col hne]
  have hmineq : (listMin? col).getD 0 = -(pad_before.getD ix 0 : Int) := by
    have hmem := listMin?_mem col _ (listMin?_isSome col hne)
    have hle := listMin?_le col _ (listMin?_isSome col hne) _ hzval
    have := (hbound _ hmem).1
    omega
  rw [listMax?_isSome col hne]
  have hmaxeq : (listMax? col).getD 0
      = ((spec.kernel_shape.getD ix 0 - 1 : Nat) : Int) * (spec.dilations.getD ix 0 : Nat)
        - (pad_before.getD ix 0 : Int) := by
    have hmem := listMax?_mem col _ (listMax?_isSome col hne)
    have hge := listMax?_ge col _ (listMax?_isSome col hne) _ htval
    have := (hbound _ hmem).2
    omega
  simp only [Option.bind_eq_bind, Option.some_bind, Option.pure_def, Option.some.injEq]
  rw [hmineq, hmaxeq]

/-! ### Arithmetic helpers -/

theorem usizeOfIsize_nonneg {v : Int} (h0 : 0 ≤ v) (h1 : v < (W64 : Int)) :
    usizeOfIsize v = v.toNat := by
  simp only [usizeOfIsize, W64] at *
  omega

theorem usizeOfIsize_neg {v : Int} (h0 : v < 0) (h1 : -(W64 : Int) ≤ v) :
    usizeOfIsize v = (v + W64).toNat := by
  simp only [usizeOfIsize, W64] at *
  omega

theorem ceilDiv_le_iff {s : Nat} (P c : Nat) (hs : 1 ≤ s) :
    (P + s - 1) / s ≤ c ↔ P ≤ c * s := by
  rw [Nat.div_le_iff_le_mul_add_pred (by omega), Nat.mul_comm s c]
  omega

theorem lt_ceilDiv_iff {s : Nat} (B c : Nat) (hs : 1 ≤ s) :
    c < (B + s - 1) / s ↔ c * s < B := by
  have h := ceilDiv_le_iff B c hs
  omega

theorem cartesian_eq_nil_iff (shape : List Nat) :
    cartesian shape = [] ↔ ∃ n ∈ shape, n = 0 := by
  induction shape with
  | nil => simp [cartesian]
  | cons n rest ih =>
    simp only [cartesian, List.flatMap_eq_nil_iff, List.mem_range, List.map_eq_nil_iff,
      List.mem_cons]
    constructor
    · intro h
      by_cases hn : n = 0
      · exact ⟨n, Or.inl rfl, hn⟩
      · obtain ⟨m, hm, hm0⟩ := ih.1 (h 0 (by omega))
        exact ⟨m, Or.inr hm, hm0⟩
    · rintro ⟨m, hm | hm, hm0⟩
      · omega
      · intro i _
        exact ih.2 ⟨m, hm, hm0⟩

theorem mkMinMax_pos_nil (n : Nat) : mkMinMax (n + 1) [] = none := by
  rw [mkMinMax, List.range_succ_eq_map, List.mapM_cons]
  simp [listMin?]

theorem mapM_isSome {α β} (f : α → Option β) :
    ∀ l : List α, (∀ x ∈ l, (f x).isSome = true) → (l.mapM f).isSome = true := by
  intro l
  induction l with
  | nil => intro _; rfl
  | cons a l ih =>
    intro h
    obtain ⟨b, hb⟩ := Option.isSome_iff_exists.1 (h a (by simp))
    obtain ⟨bs, hbs⟩ := Option.isSome_iff_exists.1 (ih fun x hx => h x (by simp [hx]))
    rw [List.mapM_cons, hb, hbs]
    rfl

/-! ### Shared concrete examples -/

/-- A 1-D patch: input length 5, kernel 3, stride 1, dilation 1, explicit
padding 1/1 (the spec's "same-size convolution" scenario). -/
def specA : PatchSpec :=
  { input_shape := [5], input_inner_stride := 1, output_inner_stride := 1,
    kernel_shape := [3], strides := [1], dilations := [1],
    padding := .Explicit [1] [1] }

def dimsA : List CnnDim := [⟨5, 1, 1⟩]

/-- The patch the builder produces from `specA` / `dimsA`. -/
def patchA : Patch :=
  { spec := specA, pad_before := [1], pad_after := [1], padded := true,
    output_shape := [5], data_field := [[-1], [0], [1]],
    data_field_min_max := [(-1, 1)], standard_layout_data_field := [-1, 0, 1],
    op_strides_times_input_storage_strides := [1],
    valid_output_zone := [(1, 4)], invalid_output_zones := [[(0, 1)], [(4, 5)]] }

/-- C1 fails on this spec: input length 1, kernel 3, "same" padding — the
dilated kernel is wider than the input, the valid range degenerates to
`[1, 0)` and both emitted shells are the whole axis. -/
def specC1 : PatchSpec :=
  { input_shape := [1], input_inner_stride := 1, output_inner_stride := 1,
    kernel_shape := [3], strides := [1], dilations := [1],
    padding := .SameUpper }

/-! ### C5 -/

/-- C5 fails on this syntactically valid spec (rank 1 everywhere, stride and
dilation 1): the dilated kernel (length 4) exceeds the input (length 2), so
`input_shape[0] - max_offset` underflows and construction panics. -/
def specC5 : PatchSpec :=
  { input_shape := [2], input_inner_stride := 1, output_inner_stride := 1,
    kernel_shape := [4], strides := [1], dilations := [1], padding := .Valid }

/-- C5, as stated, is false: for the syntactically valid `specC5` (all
sequence lengths equal the rank, strides and dilations ≥ 1) and a resolver
result reporting output 1 with no padding, `into_patch` panics (modelled as
`none`) instead of returning a Patch. -/
theorem C5_counterexample :
    specC5.kernel_shape.length = specC5.input_shape.length ∧
    specC5.strides.length = specC5.input_shape.length ∧
    specC5.dilations.length = specC5.input_shape.length ∧
    (∀ x ∈ specC5.strides, 1 ≤ x) ∧ (∀ x ∈ specC5.dilations, 1 ≤ x) ∧
    intoPatchWith specC5 [⟨1, 0, 0⟩] = none := by
  refine ⟨rfl, rfl, rfl, by decide, by decide, by decide⟩

/-- C5 (amended): Patch construction is total provided, beyond the
syntactic validity of the specification, every kernel extent is at least 1
and on each axis the maximal tap offset `(k-1)*dilation - pad_before` is
nonnegative and at most the input extent (so the zone computation's `usize`
subtraction cannot underflow); input extents are `usize` values. -/
theorem C5_build_total (spec : PatchSpec) (dims : List CnnDim)
    (hk : spec.kernel_shape.length = spec.input_shape.length)
    (hs : spec.strides.length = spec.input_shape.length)
    (hd : spec.dilations.length = spec.input_shape.length)
    (hdims : dims.length = spec.input_shape.length)
    (hs1 : ∀ x ∈ spec.strides, 1 ≤ x)
    (hk1 : ∀ x ∈ spec.kernel_shape, 1 ≤ x)
    (hin64 : ∀ x ∈ spec.input_shape, x < W64)
    (hfit : ∀ i < spec.input_shape.length,
      (dims.getD i ⟨0, 0, 0⟩).pad_before
          ≤ (spec.kernel_shape.getD i 0 - 1) * spec.dilations.getD i 0 ∧
        (spec.kernel_shape.getD i 0 - 1) * spec.dilations.getD i 0
            - (dims.getD i ⟨0, 0, 0⟩).pad_before ≤ spec.input_shape.getD i 0) :
    (intoPatchWith spec dims).isSome = true := by
  have hpblen : (dims.map (·.pad_before)).length = spec.input_shape.length := by
    simp [hdims]
  have hdf := mkDataField_eq spec (dims.map (·.pad_before)) (by omega) (by omega)
  have hdfmm := mkMinMax_eq spec (dims.map (·.pad_before)) hk1 (by omega) (by omega)
  have hax : (mkAxisData spec
      ((List.range spec.kernel_shape.length).map fun ix =>
        (-(((dims.map (·.pad_before)).getD ix 0 : Nat) : Int),
          ((spec.kernel_shape.getD ix 0 - 1 : Nat) : Int) * (spec.dilations.getD ix 0 : Nat)
            - (((dims.map (·.pad_before)).getD ix 0 : Nat) : Int)))
      (dims.map (·.output))).isSome = true := by
    apply mapM_isSome
    intro i hi
    rw [List.mem_range] at hi
    set pb : Nat := (dims.map (·.pad_before)).getD i 0 with hpb
    set K : Nat := (spec.kernel_shape.getD i 0 - 1) * spec.dilations.getD i 0 with hK
    have hKi : pb ≤ K ∧ K - pb ≤ spec.input_shape.getD i 0 := by
      have h2 := hfit i hi
      rw [hpb, map_getD _ _ ⟨0, 0, 0⟩ _ (by omega)]
      exact h2
    have hlt_in : spec.input_shape.getD i 0 < W64 := by
      have hmem : spec.input_shape.getD i 0 ∈ spec.input_shape := by
        rw [List.getD_eq_getElem _ _ hi]
        exact List.getElem_mem _
      exact hin64 _ hmem
    have hs0 : 1 ≤ spec.strides.getD i 0 := by
      have hmem : spec.strides.getD i 0 ∈ spec.strides := by
        rw [List.getD_eq_getElem _ _ (by omega)]
        exact List.getElem_mem _
      exact hs1 _ hmem
    have h1 : ((List.range spec.kernel_shape.length).map fun ix =>
        (-(((dims.map (·.pad_before)).getD ix 0 : Nat) : Int),
          ((spec.kernel_shape.getD ix 0 - 1 : Nat) : Int) * (spec.dilations.getD ix 0 : Nat)
            - (((dims.map (·.pad_before)).getD ix 0 : Nat) : Int)))[i]?
        = some (-(pb : Int),
            ((spec.kernel_shape.getD i 0 - 1 : Nat) : Int) * (spec.dilations.getD i 0 : Nat)
              - (pb : Int)) := by
      rw [List.getElem?_eq_getElem (by simpa [hk] using hi), List.getElem_map,
        List.getElem_range]
    have hsi : spec.strides[i]? = some (spec.strides.getD i 0) := by
      rw [List.getD_eq_getElem _ _ (by omega), List.getElem?_eq_getElem (by omega)]
    have hAc : ((K : Nat) : Int)
        = ((spec.kernel_shape.getD i 0 - 1 : Nat) : Int) * (spec.dilations.getD i 0 : Nat) := by
      rw [hK]
      push_cast
      ring
    have hmm2 : ((spec.kernel_shape.getD i 0 - 1 : Nat) : Int) * (spec.dilations.getD i 0 : Nat)
        - (pb : Int) = ((K - pb : Nat) : Int) := by
      rw [Nat.cast_sub hKi.1, hAc]
    have husize : usizeOfIsize (((spec.kernel_shape.getD i 0 - 1 : Nat) : Int)
        * (spec.dilations.getD i 0 : Nat) - (pb : Int)) = K - pb := by
      rw [hmm2, usizeOfIsize_nonneg (by positivity) ?_]
      · simp
      · exact_mod_cast show K - pb < W64 by omega
    have hsub : checkedSub (spec.input_shape.getD i 0)
        (usizeOfIsize (((spec.kernel_shape.getD i 0 - 1 : Nat) : Int)
          * (spec.dilations.getD i 0 : Nat) - (pb : Int)))
        = some (spec.input_shape.getD i 0 - (K - pb)) := by
      rw [husize, checkedSub, if_pos (by omega)]
    have houti : (dims.map (·.output))[i]? = some ((dims.map (·.output)).getD i 0) := by
      rw [List.getD_eq_getElem _ _ (by simpa [hdims] using hi),
        List.getElem?_eq_getElem (by simpa [hdims] using hi)]
    rw [h1]
    simp only [Option.bind_eq_bind, Option.some_bind]
    rw [hsi]
    simp only [Option.some_bind]
    rw [divCeil?, if_neg (by omega : ¬ spec.strides.getD i 0 = 0)]
    simp only [Option.some_bind]
    rw [hsub]
    simp only [Option.some_bind]
    rw [divCeil?, if_neg (by omega : ¬ spec.strides.getD i 0 = 0)]
    simp only [Option.some_bind]
    rw [houti]
    rfl
  obtain ⟨ax, haxeq⟩ := Option.isSome_iff_exists.1 hax
  rw [intoPatchWith, hdf]
  simp only [Option.some_bind, Option.bind_eq_bind]
  rw [hdfmm]
  simp only [Option.some_bind]
  rw [haxeq]
  rfl

/-- Witness for `C5_build_total`: the concrete `specA` / `dimsA`. -/
theorem C5_build_total_witness :
    (∀ x ∈ specA.strides, 1 ≤ x) ∧ (intoPatchWith specA dimsA).isSome = true := by
  refine ⟨by decide, C5_build_total specA dimsA ?_ ?_ ?_ ?_ ?_ ?_ ?_ ?_⟩ <;> decide

/-! ### C8 -/

/-- C8: the data field of a built Patch has one row per kernel-tap coordinate
of the row-major Cartesian product of `0..kernel_shape[a]` (the taps are
exactly those coordinates, listed in strictly increasing lexicographic =
row-major order), and the entry for tap `t`, axis `a` is
`t[a] * dilation[a] - pad_before[a]`. -/
theorem C8_data_field (spec : PatchSpec) (dims : List CnnDim) (p : Patch)
    (hbuilt : intoPatchWith spec dims = some p)
    (hd : spec.kernel_shape.length ≤ spec.dilations.length)
    (hr : spec.kernel_shape.length ≤ dims.length) :
    p.data_field = (cartesian spec.kernel_shape).map (tapRow spec p.pad_before) ∧
    (∀ t : List Nat, t ∈ cartesian spec.kernel_shape ↔
      t.length = spec.kernel_shape.length ∧
        ∀ i < spec.kernel_shape.length, t.getD i 0 < spec.kernel_shape.getD i 0) ∧
    (cartesian spec.kernel_shape).Pairwise (fun a b => lexLt a b = true) ∧
    ∀ t ∈ cartesian spec.kernel_shape, ∀ a < t.length,
      (tapRow spec p.pad_before t).getD a 0
        = ((t.getD a 0 * spec.dilations.getD a 0 : Nat) : Int)
          - (p.pad_before.getD a 0 : Int) := by
  obtain ⟨df, dfmm, ax, hdf, hdfmm, hax, hpeq⟩ := intoPatchWith_inv hbuilt
  have hpb : p.pad_before = dims.map (·.pad_before) := by rw [hpeq]
  have hdf2 : p.data_field = df := by rw [hpeq]
  have heq := mkDataField_eq spec (dims.map (·.pad_before)) hd (by simpa using hr)
  rw [heq] at hdf
  refine ⟨?_, fun t => cartesian_mem_iff _ t, cartesian_pairwise _, ?_⟩
  · rw [hdf2, hpb, Option.some.inj hdf]
  · intro t _ a ha
    rw [tapRow_getD spec p.pad_before t ha]

/-- The spec scenario for C8: kernel `[3]`, dilation `[2]`, no padding over a
length-10 axis. -/
def specC8 : PatchSpec :=
  { input_shape := [10], input_inner_stride := 1, output_inner_stride := 1,
    kernel_shape := [3], strides := [1], dilations := [2],
    padding := .Explicit [0] [0] }

def dimsC8 : List CnnDim := [⟨6, 0, 0⟩]

def patchC8 : Patch :=
  { spec := specC8, pad_before := [0], pad_after := [0], padded := false,
    output_shape := [6], data_field := [[0], [2], [4]],
    data_field_min_max := [(0, 4)], standard_layout_data_field := [0, 2, 4],
    op_strides_times_input_storage_strides := [1],
    valid_output_zone := [(0, 6)], invalid_output_zones := [] }

/-- Witness for `C8_data_field`: the scenario patch; its taps sit at relative
offsets 0, 2, 4. -/
theorem C8_data_field_witness :
    intoPatchWith specC8 dimsC8 = some patchC8 ∧
    patchC8.data_field = [[0], [2], [4]] ∧
    patchC8.data_field = (cartesian specC8.kernel_shape).map (tapRow specC8 patchC8.pad_before) := by
  refine ⟨by decide, by decide,
    (C8_data_field specC8 dimsC8 patchC8 (by decide) (by decide) (by decide)).1⟩

/-! ### C6 -/

theorem mapM_isSome_iff {α β} (f : α → Option β) :
    ∀ l : List α, (l.mapM f).isSome = true ↔ ∀ x ∈ l, (f x).isSome = true := by
  intro l
  refine ⟨?_, mapM_isSome f l⟩
  induction l with
  | nil => intro _ x hx; cases hx
  | cons a l ih =>
    intro h x hx
    rw [List.mapM_cons] at h
    cases hfa : f a with
    | none =>
      rw [hfa] at h
      simp at h
    | some b =>
      rw [hfa] at h
      cases hml : l.mapM f with
      | none =>
        rw [hml] at h
        simp at h
      | some bs =>
        rcases List.mem_cons.1 hx with rfl | hx2
        · simp [hfa]
        · exact ih (by rw [hml]; rfl) x hx2

/-- C6 fails on this spec: the stride sequence `[1, 7]` is longer than the
input rank (1), yet construction succeeds — silently ignoring the extra
stride, as shown by the result coinciding with the truncated-strides
build on every derived field. -/
def specC6 : PatchSpec :=
  { input_shape := [4], input_inner_stride := 1, output_inner_stride := 1,
    kernel_shape := [1], strides := [1, 7], dilations := [1], padding := .Valid }

/-- `specC6` with the over-long stride sequence truncated to the rank. -/
def specC6trunc : PatchSpec :=
  { input_shape := [4], input_inner_stride := 1, output_inner_stride := 1,
    kernel_shape := [1], strides := [1], dilations := [1], padding := .Valid }

/-- C6 also fails on this spec: the dilation sequence `[1, 7]` is longer than
the kernel rank (1), yet construction succeeds — the excess dilation is never
read (the per-tap loop of patches.rs lines 79-86 runs over the kernel rank
only). -/
def specC6dl : PatchSpec :=
  { input_shape := [4], input_inner_stride := 1, output_inner_stride := 1,
    kernel_shape := [1], strides := [1], dilations := [1, 7], padding := .Valid }

theorem C6_counterexample :
    specC6.strides.length ≠ specC6.input_shape.length ∧
    (intoPatchWith specC6 [⟨4, 0, 0⟩]).isSome = true ∧
    (intoPatchWith specC6 [⟨4, 0, 0⟩]).map
        (fun p => (p.valid_output_zone, p.invalid_output_zones, p.output_shape))
      = (intoPatchWith specC6trunc [⟨4, 0, 0⟩]).map
        (fun p => (p.valid_output_zone, p.invalid_output_zones, p.output_shape)) ∧
    (intoPatchWith specC6 [⟨4, 0, 0⟩]).map
        (fun p => (p.op_strides_times_input_storage_strides, p.standard_layout_data_field))
      = (intoPatchWith specC6trunc [⟨4, 0, 0⟩]).map
        (fun p => (p.op_strides_times_input_storage_strides, p.standard_layout_data_field)) ∧
    specC6dl.dilations.length ≠ specC6dl.input_shape.length ∧
    (intoPatchWith specC6dl [⟨4, 0, 0⟩]).isSome = true ∧
    (intoPatchWith specC6dl [⟨4, 0, 0⟩]).map
        (fun p => (p.data_field, p.data_field_min_max, p.standard_layout_data_field))
      = (intoPatchWith specC6trunc [⟨4, 0, 0⟩]).map
        (fun p => (p.data_field, p.data_field_min_max, p.standard_layout_data_field)) ∧
    (intoPatchWith specC6dl [⟨4, 0, 0⟩]).map
        (fun p => (p.valid_output_zone, p.invalid_output_zones, p.output_shape))
      = (intoPatchWith specC6trunc [⟨4, 0, 0⟩]).map
        (fun p => (p.valid_output_zone, p.invalid_output_zones, p.output_shape)) := by
  refine ⟨by decide, by decide, by decide, by decide, by decide, by decide, by decide, by decide⟩

/-- C6 (amended): construction fails fast (a panic, modelled `none`) whenever
the kernel or stride sequence is SHORTER than the input rank, or the dilation
sequence is SHORTER than the kernel rank (which covers a kernel sequence
LONGER than the input rank when the dilations have matching rank: the per-tap
`dilations[ix]` read of patches.rs line 81 then panics) — but an over-long
stride or dilation sequence is silently truncated (see the counterexample). -/
theorem C6_mismatched_sequences (spec : PatchSpec) (dims : List CnnDim) :
    (spec.kernel_shape.length < spec.input_shape.length → intoPatchWith spec dims = none)
    ∧ (spec.strides.length < spec.input_shape.length → intoPatchWith spec dims = none)
    ∧ (spec.dilations.length < spec.kernel_shape.length → intoPatchWith spec dims = none) := by
  have h1 : spec.kernel_shape.length < spec.input_shape.length →
      intoPatchWith spec dims = none := by
    intro hks
    rw [intoPatchWith]
    simp only [Option.bind_eq_bind]
    cases hdf : mkDataField spec (dims.map (·.pad_before)) with
    | none => rfl
    | some df =>
    simp only [Option.some_bind]
    cases hdfmm : mkMinMax spec.kernel_shape.length df with
    | none => rfl
    | some dfmm =>
    simp only [Option.some_bind]
    have hlen : dfmm.length = spec.kernel_shape.length := by
      simpa using mapM_some_length _ _ _ hdfmm
    have hnone : mkAxisData spec dfmm (dims.map (·.output)) = none := by
      cases haxd : mkAxisData spec dfmm (dims.map (·.output)) with
      | none => rfl
      | some ax =>
        exfalso
        have hf := mapM_some_getD _ 0 ((0 : Nat), (0 : Nat), (0 : Nat)) _ _ haxd
          spec.kernel_shape.length (by simpa using hks)
        rw [range_getD (by omega)] at hf
        rw [List.getElem?_eq_none (by omega : dfmm.length ≤ spec.kernel_shape.length)] at hf
        simp at hf
    rw [hnone]
    rfl
  refine ⟨h1, ?_, ?_⟩
  · -- strides shorter than the input rank
    intro hss
    by_cases hkl : spec.strides.length < spec.kernel_shape.length
    · rw [intoPatchWith]
      simp only [Option.bind_eq_bind]
      cases hdf : mkDataField spec (dims.map (·.pad_before)) with
      | none => rfl
      | some df =>
      simp only [Option.some_bind]
      cases hdfmm : mkMinMax spec.kernel_shape.length df with
      | none => rfl
      | some dfmm =>
      simp only [Option.some_bind]
      have hlen : dfmm.length = spec.kernel_shape.length := by
        simpa using mapM_some_length _ _ _ hdfmm
      have hnone : mkAxisData spec dfmm (dims.map (·.output)) = none := by
        cases haxd : mkAxisData spec dfmm (dims.map (·.output)) with
        | none => rfl
        | some ax =>
          exfalso
          have hf := mapM_some_getD _ 0 ((0 : Nat), (0 : Nat), (0 : Nat)) _ _ haxd
            spec.strides.length (by simpa using hss)
          rw [range_getD (by omega)] at hf
          rw [List.getElem?_eq_getElem (show spec.strides.length < dfmm.length by omega)] at hf
          simp only [Option.bind_eq_bind, Option.some_bind] at hf
          rw [List.getElem?_eq_none (le_refl _)] at hf
          simp at hf
      rw [hnone]
      rfl
    · exact h1 (by omega)
  · -- dilations shorter than the kernel rank
    intro hds
    by_cases hz : ∀ x ∈ spec.kernel_shape, 1 ≤ x
    · -- some tap exists, and its dilation read panics
      have hnone : mkDataField spec (dims.map (·.pad_before)) = none := by
        cases hdf : mkDataField spec (dims.map (·.pad_before)) with
        | none => rfl
        | some df =>
          exfalso
          have hsome : (mkDataField spec (dims.map (·.pad_before))).isSome = true := by
            rw [hdf]
            rfl
          rw [mkDataField, mapM_isSome_iff] at hsome
          have hzmem := cartesian_zeros_mem spec.kernel_shape (fun n hn => hz n hn)
          have h2 := hsome _ hzmem
          rw [mapM_isSome_iff] at h2
          have h3 := h2 spec.dilations.length
            (by rw [List.mem_range, List.length_replicate]; exact hds)
          simp only [Option.bind_eq_bind] at h3
          rw [List.getElem?_eq_none (le_refl _)] at h3
          simp at h3
      rw [intoPatchWith]
      simp only [Option.bind_eq_bind]
      rw [hnone]
      rfl
    · -- a zero kernel extent: the tap set is empty and the min/max unwrap panics
      push_neg at hz
      obtain ⟨x, hx, hx0⟩ := hz
      have hnil : cartesian spec.kernel_shape = [] :=
        (cartesian_eq_nil_iff _).2 ⟨x, hx, by omega⟩
      have hdf0 : mkDataField spec (dims.map (·.pad_before)) = some [] := by
        rw [mkDataField, hnil]
        rfl
      obtain ⟨n, hn⟩ : ∃ n, spec.kernel_shape.length = n + 1 := by
        cases hkl : spec.kernel_shape.length with
        | zero =>
          rw [List.length_eq_zero] at hkl
          rw [hkl] at hx
          cases hx
        | succ n => exact ⟨n, rfl⟩
      rw [intoPatchWith]
      simp only [Option.bind_eq_bind]
      rw [hdf0]
      simp only [Option.some_bind]
      rw [hn, mkMinMax_pos_nil]
      rfl

def specC6s : PatchSpec :=
  { input_shape := [3, 3], input_inner_stride := 1, output_inner_stride := 1,
    kernel_shape := [1, 1], strides := [1], dilations := [1, 1], padding := .Valid }

/-- A kernel sequence shorter than the input rank. -/
def specC6k : PatchSpec :=
  { input_shape := [3, 3], input_inner_stride := 1, output_inner_stride := 1,
    kernel_shape := [1], strides := [1, 1], dilations := [1, 1], padding := .Valid }

/-- A kernel sequence longer than the input rank (so the rank-1 dilation
sequence is shorter than the kernel rank and the `dilations[ix]` read
panics). -/
def specC6d : PatchSpec :=
  { input_shape := [3], input_inner_stride := 1, output_inner_stride := 1,
    kernel_shape := [2, 2], strides := [1], dilations := [1], padding := .Valid }

/-- Witness for `C6_mismatched_sequences`: all three too-short cases at
concrete specifications, including the over-long kernel `[2, 2]` on a rank-1
input. -/
theorem C6_mismatched_sequences_witness :
    intoPatchWith specC6k [⟨3, 0, 0⟩, ⟨3, 0, 0⟩] = none
    ∧ intoPatchWith specC6s [⟨3, 0, 0⟩, ⟨3, 0, 0⟩] = none
    ∧ intoPatchWith specC6d [⟨3, 0, 0⟩] = none :=
  ⟨(C6_mismatched_sequences specC6k _).1 (by decide),
   (C6_mismatched_sequences specC6s _).2.1 (by decide),
   (C6_mismatched_sequences specC6d _).2.2 (by decide)⟩

/-! ### C10 -/

/-- C10: `global_offset_for` performs no bounds check and casts the signed
offset `as usize`: when the signed offset `center + standard_layout_data_field[t]`
is negative (a tap outside the input, where `at` yields "no input element"),
it returns the two's-complement wrapped value `offset + 2^64` instead of
failing or signalling absence. -/
theorem C10_global_offset_wraps (p : Patch) (coords : List Nat) (t : Nat) (v : Int)
    (items : List (Option Int))
    (hlen : coords.length = p.spec.kernel_shape.length)
    (hf : p.standard_layout_data_field[t]? = some v)
    (hat : p.at coords = some items)
    (hmiss : items.getD t none = none)
    (hneg : ((coords.zip p.op_strides_times_input_storage_strides).map
        fun q => (q.1 : Int) * q.2).sum + v < 0)
    (hge : -(W64 : Int) ≤ ((coords.zip p.op_strides_times_input_storage_strides).map
        fun q => (q.1 : Int) * q.2).sum + v) :
    p.global_offset_for coords t
      = some ((((coords.zip p.op_strides_times_input_storage_strides).map
          fun q => (q.1 : Int) * q.2).sum + v + W64).toNat) := by
  rw [Patch.global_offset_for, if_pos hlen]
  simp only [Option.bind_eq_bind]
  rw [hf]
  simp only [Option.some_bind, Option.pure_def, Option.some.injEq]
  exact usizeOfIsize_neg hneg hge

/-- Witness for `C10_global_offset_wraps`: on `patchA`, coordinate `[0]`,
tap 0 falls before the input (`at` yields `none` there, signed offset -1),
and `global_offset_for` returns `2^64 - 1`. -/
theorem C10_global_offset_wraps_witness :
    (patchA.at [0] = some [none, some 0, some 1]) ∧
    patchA.global_offset_for [0] 0 = some 18446744073709551615 := by
  refine ⟨by decide, ?_⟩
  have h := C10_global_offset_wraps patchA [0] 0 (-1) [none, some 0, some 1]
    (by decide) (by decide) (by decide) (by decide) (by decide) (by decide)
  simpa using h

/-! ### C3 -/

/-- C3: for every built Patch and coordinate of matching rank, the direct
per-axis test `is_valid` agrees exactly with componentwise membership in
`valid_output_zone`.  Realistic-size hypotheses (`usize`/`isize` values far
from overflow) make the modelled casts exact. -/
theorem C3_is_valid_iff_zone (spec : PatchSpec) (dims : List CnnDim) (p : Patch)
    (hbuilt : intoPatchWith spec dims = some p)
    (hk : spec.kernel_shape.length = spec.input_shape.length)
    (hs : spec.strides.length = spec.input_shape.length)
    (hd : spec.dilations.length = spec.input_shape.length)
    (hdims : dims.length = spec.input_shape.length)
    (hs1 : ∀ x ∈ spec.strides, 1 ≤ x)
    (hin62 : ∀ x ∈ spec.input_shape, x < 2 ^ 62)
    (hpb62 : ∀ c ∈ dims, c.pad_before < 2 ^ 62)
    (hk31 : ∀ x ∈ spec.kernel_shape, x < 2 ^ 31)
    (hd31 : ∀ x ∈ spec.dilations, x < 2 ^ 31)
    (coords : List Nat)
    (hclen : coords.length = spec.input_shape.length) :
    p.is_valid coords = inZone coords p.valid_output_zone := by
  obtain ⟨df, dfmm, ax, hdf, hdfmm, hax, hpeq⟩ := intoPatchWith_inv hbuilt
  have hps : p.spec = spec := by rw [hpeq]
  have hpmm : p.data_field_min_max = dfmm := by rw [hpeq]
  have haxlen : ax.length = spec.input_shape.length := mkAxisData_length hax
  -- every kernel extent is at least one, else the min/max unwrap would panic
  have hk1 : ∀ x ∈ spec.kernel_shape, 1 ≤ x := by
    by_contra hcon
    push_neg at hcon
    obtain ⟨x, hx, hx0⟩ := hcon
    have hnil : cartesian spec.kernel_shape = [] :=
      (cartesian_eq_nil_iff _).2 ⟨x, hx, by omega⟩
    have heq := mkDataField_eq spec (dims.map (·.pad_before)) (by omega) (by simp; omega)
    rw [heq] at hdf
    have hdfnil : df = [] := by
      have h2 := Option.some.inj hdf
      rw [hnil] at h2
      simpa using h2.symm
    obtain ⟨n, hn⟩ : ∃ n, spec.kernel_shape.length = n + 1 := by
      cases hkl : spec.kernel_shape.length with
      | zero =>
        rw [List.length_eq_zero] at hkl
        rw [hkl] at hx
        cases hx
      | succ n => exact ⟨n, rfl⟩
    rw [hdfnil, hn, mkMinMax_pos_nil] at hdfmm
    cases hdfmm
  -- closed form of the data field and its per-axis min/max
  have heqdf := mkDataField_eq spec (dims.map (·.pad_before)) (by omega) (by simp; omega)
  rw [heqdf] at hdf
  have hdfval := (Option.some.inj hdf).symm
  have hmmval : dfmm = (List.range spec.kernel_shape.length).map fun ix =>
      (-(((dims.map (·.pad_before)).getD ix 0 : Nat) : Int),
        ((spec.kernel_shape.getD ix 0 - 1 : Nat) : Int) * (spec.dilations.getD ix 0 : Nat)
          - (((dims.map (·.pad_before)).getD ix 0 : Nat) : Int)) := by
    rw [hdfval] at hdfmm
    have heq2 := mkMinMax_eq spec (dims.map (·.pad_before)) hk1 (by omega) (by simp; omega)
    rw [heq2] at hdfmm
    exact (Option.some.inj hdfmm).symm
  -- the valid zone is the per-axis (min, max) list
  have hdrop : ((dims.map (·.output)).drop spec.input_shape.length) = [] := by
    apply List.drop_eq_nil_of_le
    simp [hdims]
  have hvz : p.valid_output_zone = ax.map fun t => (t.1, t.2.1) := by
    rw [hpeq]
    show (zoneFold _ ax [] []).1 = _
    rw [hdrop]
    simpa using zoneFold_fst _ ax [] []
  -- per-axis bridge
  have hbridge : ∀ i, i < spec.input_shape.length →
      (((ax.getD i (0, 0, 0)).1 ≤ coords.getD i 0 ∧ coords.getD i 0 < (ax.getD i (0, 0, 0)).2.1)
        ↔ (0 ≤ (coords.getD i 0 : Int) * (spec.strides.getD i 0 : Int) + (dfmm.getD i (0, 0)).1 ∧
            (coords.getD i 0 : Int) * (spec.strides.getD i 0 : Int) + (dfmm.getD i (0, 0)).2
              < (spec.input_shape.getD i 0 : Int))) := by
    intro i hi
    obtain ⟨mm, s, sub, hmm, hsi, hs0, hsub, _, hmn, hmx⟩ := mkAxisData_get hax i hi
    -- name the per-axis scalars
    have hpbi : (dims.map (·.pad_before)).getD i 0 = (dims.getD i ⟨0, 0, 0⟩).pad_before :=
      map_getD _ _ ⟨0, 0, 0⟩ _ (by omega)
    have hmmv : mm = (-(((dims.getD i ⟨0, 0, 0⟩).pad_before : Nat) : Int),
        ((spec.kernel_shape.getD i 0 - 1 : Nat) : Int) * (spec.dilations.getD i 0 : Nat)
          - (((dims.getD i ⟨0, 0, 0⟩).pad_before : Nat) : Int)) := by
      rw [hmmval] at hmm
      rw [List.getElem?_eq_getElem (by simpa [hk] using hi), List.getElem_map,
        List.getElem_range] at hmm
      rw [← hpbi]
      exact (Option.some.inj hmm).symm
    have hsv : s = spec.strides.getD i 0 := by
      rw [List.getElem?_eq_getElem (show i < spec.strides.length by omega)] at hsi
      rw [List.getD_eq_getElem _ _ (by omega)]
      exact (Option.some.inj hsi).symm
    have hgd : dfmm.getD i (0, 0) = mm := by
      have : dfmm[i]? = some (dfmm.getD i (0, 0)) := by
        rw [hmmval]
        rw [List.getElem?_eq_getElem (by simpa [hk] using hi),
          List.getD_eq_getElem _ _ (by simpa [hk] using hi)]
      rw [this] at hmm
      exact Option.some.inj hmm
    -- realistic-size facts
    have hpb_lt : (dims.getD i ⟨0, 0, 0⟩).pad_before < 2 ^ 62 := by
      have hmem : dims.getD i ⟨0, 0, 0⟩ ∈ dims := by
        rw [List.getD_eq_getElem _ _ (by omega)]
        exact List.getElem_mem _
      exact hpb62 _ hmem
    have hin_lt : spec.input_shape.getD i 0 < 2 ^ 62 := by
      have hmem : spec.input_shape.getD i 0 ∈ spec.input_shape := by
        rw [List.getD_eq_getElem _ _ hi]
        exact List.getElem_mem _
      exact hin62 _ hmem
    have hA_lt : (spec.kernel_shape.getD i 0 - 1) * spec.dilations.getD i 0 < 2 ^ 62 := by
      have h1 : spec.kernel_shape.getD i 0 < 2 ^ 31 := by
        have hmem : spec.kernel_shape.getD i 0 ∈ spec.kernel_shape := by
          rw [List.getD_eq_getElem _ _ (by omega)]
          exact List.getElem_mem _
        exact hk31 _ hmem
      have h2 : spec.dilations.getD i 0 < 2 ^ 31 := by
        have hmem : spec.dilations.getD i 0 ∈ spec.dilations := by
          rw [List.getD_eq_getElem _ _ (by omega)]
          exact List.getElem_mem _
        exact hd31 _ hmem
      have h3 : (spec.kernel_shape.getD i 0 - 1) * spec.dilations.getD i 0
          ≤ (2 ^ 31 - 1) * (2 ^ 31 - 1) := Nat.mul_le_mul (by omega) (by omega)
      omega
    have hs1i : 1 ≤ spec.strides.getD i 0 := by
      have hmem : spec.strides.getD i 0 ∈ spec.strides := by
        rw [List.getD_eq_getElem _ _ (by omega)]
        exact List.getElem_mem _
      exact hs1 _ hmem
    have hAc : (((spec.kernel_shape.getD i 0 - 1) * spec.dilations.getD i 0 : Nat) : Int)
        = ((spec.kernel_shape.getD i 0 - 1 : Nat) : Int) * (spec.dilations.getD i 0 : Nat) := by
      push_cast
      ring
    -- the maximum offset is nonnegative and the subtraction is exact
    have hsub2 : usizeOfIsize mm.2 ≤ spec.input_shape.getD i 0 ∧
        sub = spec.input_shape.getD i 0 - usizeOfIsize mm.2 := by
      rw [checkedSub] at hsub
      by_cases hle : usizeOfIsize mm.2 ≤ spec.input_shape.getD i 0
      · rw [if_pos hle] at hsub
        exact ⟨hle, (Option.some.inj hsub).symm⟩
      · rw [if_neg hle] at hsub
        cases hsub
    have h0mm2 : 0 ≤ mm.2 := by
      by_contra hneg
      push_neg at hneg
      have hge : -(W64 : Int) ≤ mm.2 := by
        rw [hmmv]
        simp only [W64]
        have : (0 : Int) ≤ ((spec.kernel_shape.getD i 0 - 1 : Nat) : Int)
            * (spec.dilations.getD i 0 : Nat) := by positivity
        have hpbc : (((dims.getD i ⟨0, 0, 0⟩).pad_before : Nat) : Int) < 2 ^ 62 := by
          exact_mod_cast hpb_lt
        omega
      have husz := usizeOfIsize_neg hneg hge
      rw [husz] at hsub2
      have hbig : (2 : Int) ^ 62 < mm.2 + W64 := by
        rw [hmmv]
        simp only [W64]
        have : (0 : Int) ≤ ((spec.kernel_shape.getD i 0 - 1 : Nat) : Int)
            * (spec.dilations.getD i 0 : Nat) := by positivity
        have hpbc : (((dims.getD i ⟨0, 0, 0⟩).pad_before : Nat) : Int) < 2 ^ 62 := by
          exact_mod_cast hpb_lt
        omega
      have := hsub2.1
      omega
    have hpbA : (dims.getD i ⟨0, 0, 0⟩).pad_before
        ≤ (spec.kernel_shape.getD i 0 - 1) * spec.dilations.getD i 0 := by
      rw [hmmv] at h0mm2
      simp only at h0mm2
      rw [← hAc] at h0mm2
      exact_mod_cast by omega
    have husz2 : usizeOfIsize mm.2
        = (spec.kernel_shape.getD i 0 - 1) * spec.dilations.getD i 0
          - (dims.getD i ⟨0, 0, 0⟩).pad_before := by
      have hlt : mm.2 < (W64 : Int) := by
        rw [hmmv]
        simp only [W64, ← hAc]
        have hAcast : (((spec.kernel_shape.getD i 0 - 1) * spec.dilations.getD i 0 : Nat) : Int)
            < 2 ^ 62 := by exact_mod_cast hA_lt
        omega
      rw [usizeOfIsize_nonneg h0mm2 hlt, hmmv]
      simp only [← hAc]
      omega
    -- min bound: ceil(pad_before / stride)
    have husz1 : usizeOfIsize (-mm.1) = (dims.getD i ⟨0, 0, 0⟩).pad_before := by
      rw [hmmv]
      simp only [neg_neg]
      rw [usizeOfIsize_nonneg (by positivity) ?_]
      · simp
      · simp only [W64]
        have : (((dims.getD i ⟨0, 0, 0⟩).pad_before : Nat) : Int) < 2 ^ 62 := by
          exact_mod_cast hpb_lt
        omega
    rw [hmn, hmx, husz1, hsub2.2, husz2, hgd, hmmv, hsv]
    dsimp only
    -- both sides are now arithmetic in Nat scalars
    constructor
    · rintro ⟨h1, h2⟩
      rw [ceilDiv_le_iff _ _ hs1i] at h1
      rw [lt_ceilDiv_iff _ _ hs1i] at h2
      have hc1 : ((coords.getD i 0 * spec.strides.getD i 0 : Nat) : Int)
          = (coords.getD i 0 : Int) * (spec.strides.getD i 0 : Nat) := by
        push_cast
        ring
      constructor
      · have : ((dims.getD i ⟨0, 0, 0⟩).pad_before : Int)
            ≤ ((coords.getD i 0 * spec.strides.getD i 0 : Nat) : Int) := by
          exact_mod_cast h1
        rw [hc1] at this
        omega
      · have : ((coords.getD i 0 * spec.strides.getD i 0 : Nat) : Int)
            < ((spec.input_shape.getD i 0
                - ((spec.kernel_shape.getD i 0 - 1) * spec.dilations.getD i 0
                  - (dims.getD i ⟨0, 0, 0⟩).pad_before) : Nat) : Int) := by
          exact_mod_cast h2
        rw [hc1] at this
        rw [← hAc]
        have hle2 : (spec.kernel_shape.getD i 0 - 1) * spec.dilations.getD i 0
            - (dims.getD i ⟨0, 0, 0⟩).pad_before ≤ spec.input_shape.getD i 0 := by
          have := hsub2.1
          rw [husz2] at this
          exact this
        omega
    · rintro ⟨h1, h2⟩
      rw [ceilDiv_le_iff _ _ hs1i, ← Nat.cast_le (α := Int)]
      rw [lt_ceilDiv_iff _ _ hs1i, ← Nat.cast_lt (α := Int)]
      have hc1 : ((coords.getD i 0 * spec.strides.getD i 0 : Nat) : Int)
          = (coords.getD i 0 : Int) * (spec.strides.getD i 0 : Nat) := by
        push_cast
        ring
      rw [← hAc] at h2
      have hle2 : (spec.kernel_shape.getD i 0 - 1) * spec.dilations.getD i 0
          - (dims.getD i ⟨0, 0, 0⟩).pad_before ≤ spec.input_shape.getD i 0 := by
        have := hsub2.1
        rw [husz2] at this
        exact this
      constructor
      · rw [hc1]
        omega
      · rw [hc1]
        have hcsub : ((spec.input_shape.getD i 0
            - ((spec.kernel_shape.getD i 0 - 1) * spec.dilations.getD i 0
              - (dims.getD i ⟨0, 0, 0⟩).pad_before) : Nat) : Int)
            = (spec.input_shape.getD i 0 : Int)
              - (((spec.kernel_shape.getD i 0 - 1) * spec.dilations.getD i 0
                - (dims.getD i ⟨0, 0, 0⟩).pad_before : Nat) : Int) := by
          rw [Nat.cast_sub hle2]
        rw [hcsub]
        have hcsub2 : (((spec.kernel_shape.getD i 0 - 1) * spec.dilations.getD i 0
            - (dims.getD i ⟨0, 0, 0⟩).pad_before : Nat) : Int)
            = (((spec.kernel_shape.getD i 0 - 1) * spec.dilations.getD i 0 : Nat) : Int)
              - (((dims.getD i ⟨0, 0, 0⟩).pad_before : Nat) : Int) := by
          rw [Nat.cast_sub hpbA]
        rw [hcsub2]
        omega
  -- assemble the Boolean equality
  rw [Bool.eq_iff_iff]
  have hQ1 : p.is_valid coords = true ↔
      ∀ i < spec.input_shape.length,
        (0 ≤ (coords.getD i 0 : Int) * (spec.strides.getD i 0 : Int) + (dfmm.getD i (0, 0)).1 ∧
          (coords.getD i 0 : Int) * (spec.strides.getD i 0 : Int) + (dfmm.getD i (0, 0)).2
            < (spec.input_shape.getD i 0 : Int)) := by
    rw [Patch.is_valid, List.all_eq_true]
    constructor
    · intro h i hi
      have := h i (by rw [Patch.rank, hps]; exact List.mem_range.2 hi)
      rw [hps, hpmm] at this
      simp only [Bool.not_eq_eq_eq_not, Bool.not_true, Bool.or_eq_false_iff,
        decide_eq_false_iff_not, not_lt, not_le] at this
      exact ⟨this.1, this.2⟩
    · intro h i hi
      rw [Patch.rank, hps] at hi
      rw [List.mem_range] at hi
      have := h i hi
      rw [hps, hpmm]
      simp only [Bool.not_eq_eq_eq_not, Bool.not_true, Bool.or_eq_false_iff,
        decide_eq_false_iff_not, not_lt, not_le]
      exact ⟨this.1, this.2⟩
  have hQ2 : inZone coords p.valid_output_zone = true ↔
      ∀ i < spec.input_shape.length,
        ((ax.getD i (0, 0, 0)).1 ≤ coords.getD i 0 ∧
          coords.getD i 0 < (ax.getD i (0, 0, 0)).2.1) := by
    rw [hvz, inZone_iff]
    constructor
    · rintro ⟨_, hp2⟩ i hi
      have := hp2 i (by simpa [haxlen] using hi)
      rw [map_getD _ _ (0, 0, 0) _ (by omega)] at this
      exact this
    · intro h
      refine ⟨by simp [hclen, haxlen], fun i hi => ?_⟩
      rw [List.length_map] at hi
      rw [map_getD _ _ (0, 0, 0) _ (by omega)]
      exact h i (by omega)
  rw [hQ1, hQ2]
  constructor
  · intro h i hi
    exact (hbridge i hi).2 (h i hi)
  · intro h i hi
    exact (hbridge i hi).1 (h i hi)

/-- Witness for `C3_is_valid_iff_zone`: `patchA`, checked at the boundary
coordinate `[1]` (first valid output position). -/
theorem C3_is_valid_iff_zone_witness :
    intoPatchWith specA dimsA = some patchA ∧
    patchA.is_valid [1] = inZone [1] patchA.valid_output_zone := by
  refine ⟨by decide, C3_is_valid_iff_zone specA dimsA patchA ?_ ?_ ?_ ?_ ?_ ?_ ?_ ?_ ?_ ?_ [1] ?_⟩
    <;> decide

/-! ### Iterator infrastructure -/

theorem layoutFold_length :
    ∀ (l : List Nat) (acc : List Int),
      (l.foldl (fun acc d => Int.ofNat d * acc.headD 0 :: acc) acc).length
        = acc.length + l.length := by
  intro l
  induction l with
  | nil => intro acc; simp
  | cons a l ih =>
    intro acc
    rw [List.foldl_cons, ih]
    simp
    omega

theorem inputLayoutStrides_length (spec : PatchSpec) :
    (inputLayoutStrides spec).length = 1 + (spec.input_shape.length - 1) := by
  rw [inputLayoutStrides, layoutFold_length]
  simp only [List.length_singleton, List.length_reverse, List.length_drop]

theorem ops_length (spec : PatchSpec) (hs : spec.strides.length = spec.input_shape.length) :
    ((spec.strides.zip (inputLayoutStrides spec)).map fun q => (q.1 : Int) * q.2).length
      = spec.input_shape.length := by
  rw [List.length_map, List.length_zip, inputLayoutStrides_length, hs]
  omega

theorem flatten_getD_uniform {α} (n : Nat) (d : α) :
    ∀ (rows : List (List α)), (∀ r ∈ rows, r.length = n) →
      ∀ q, q < rows.length → ∀ i, i < n →
        rows.flatten.getD (q * n + i) d = (rows.getD q []).getD i d := by
  intro rows
  induction rows with
  | nil => intro _ q hq; simp at hq
  | cons r rest ih =>
    intro h q hq i hi
    cases q with
    | zero =>
      have hr : r.length = n := h r (by simp)
      simp only [List.flatten_cons, Nat.zero_mul, Nat.zero_add]
      rw [List.getD_append _ _ _ _ (by omega)]
      rfl
    | succ q =>
      have hr : r.length = n := h r (by simp)
      simp only [List.flatten_cons]
      rw [List.getD_append_right _ _ _ _ (by nlinarith [Nat.succ_mul q n])]
      have harith : (q + 1) * n + i - r.length = q * n + i := by
        rw [hr]
        ring_nf
        omega
      rw [harith]
      exact ih (fun x hx => h x (by simp [hx])) q (by simpa using hq) i hi

theorem mulStrides_getD (coords strides : List Nat) {a : Nat} (ha : a < coords.length) :
    (mulStrides coords strides).getD a 0 = coords.getD a 0 * strides.getD a 1 := by
  rw [mulStrides, map_getD _ _ (0, 0) _ (by simpa using ha)]
  congr 1
  · rw [List.getD_eq_getElem _ _ (by simpa using ha), List.getElem_enum,
      List.getD_eq_getElem _ _ ha]
  · congr 1
    rw [List.getD_eq_getElem _ _ (by simpa using ha), List.getElem_enum]

theorem safeItems_getD (p : Patch) (ipc : List Nat) (center : Int) {t : Nat}
    (ht : t < p.standard_layout_data_field.length) :
    (safeItems p ipc center).getD t none = safeItem p ipc center t := by
  rw [safeItems, map_getD _ _ 0 _ (by simpa using ht), range_getD ht]

theorem any_congr {α} (f g : α → Bool) :
    ∀ l : List α, (∀ x ∈ l, f x = g x) → l.any f = l.any g := by
  intro l
  induction l with
  | nil => intro _; rfl
  | cons a l ih =>
    intro h
    simp only [List.any_cons]
    rw [h a (by simp), ih fun x hx => h x (by simp [hx])]

/-! ### C7 -/

/-- C7: the safe iterator (as obtained from `at_hint` with hint
`some false`), for output coordinate `c` and tap index `t`, yields "no input
element" (`none`) exactly when some axis `a` has
`c[a]*stride[a] + data_field[t][a]` negative or `≥ input_shape[a]`;
otherwise it yields the flat offset
`Σ_a c[a]*op_strides_times_input_storage_strides[a] + standard_layout_data_field[t]`.
Each tap's item depends only on its own row of the data field, so taps are
tested independently. -/
theorem C7_safe_iterator (spec : PatchSpec) (dims : List CnnDim) (p : Patch)
    (hbuilt : intoPatchWith spec dims = some p)
    (hk : spec.kernel_shape.length = spec.input_shape.length)
    (hs : spec.strides.length = spec.input_shape.length)
    (hd : spec.dilations.length = spec.input_shape.length)
    (hdims : dims.length = spec.input_shape.length)
    (coords : List Nat) (hclen : coords.length = spec.kernel_shape.length)
    (t : Nat) (ht : t < p.standard_layout_data_field.length) :
    ∃ items, p.at_hint coords (some false) = some items ∧
      items.length = p.standard_layout_data_field.length ∧
      items.getD t none
        = if (List.range spec.input_shape.length).any (fun a =>
              decide ((coords.getD a 0 : Int) * (spec.strides.getD a 0 : Int)
                  + (p.data_field.getD t []).getD a 0 < 0) ||
              decide ((coords.getD a 0 : Int) * (spec.strides.getD a 0 : Int)
                  + (p.data_field.getD t []).getD a 0
                    ≥ (spec.input_shape.getD a 0 : Int)))
          then none
          else some (((List.range spec.input_shape.length).map fun a =>
              (coords.getD a 0 : Int)
                * p.op_strides_times_input_storage_strides.getD a 0).sum
            + p.standard_layout_data_field.getD t 0) := by
  obtain ⟨df, dfmm, ax, hdf, hdfmm, hax, hpeq⟩ := intoPatchWith_inv hbuilt
  have hps : p.spec = spec := by rw [hpeq]
  have hdfeq : p.data_field = df := by rw [hpeq]
  have hops : p.op_strides_times_input_storage_strides
      = (spec.strides.zip (inputLayoutStrides spec)).map fun q => (q.1 : Int) * q.2 := by
    rw [hpeq]
  have hsldf : p.standard_layout_data_field = df.map fun row => dot row (inputLayoutStrides spec) := by
    rw [hpeq]
  have hdfval : df = (cartesian spec.kernel_shape).map (tapRow spec (dims.map (·.pad_before))) := by
    have heq := mkDataField_eq spec (dims.map (·.pad_before)) (by omega) (by simp; omega)
    rw [heq] at hdf
    exact (Option.some.inj hdf).symm
  have hrowlen : ∀ r ∈ p.data_field, r.length = spec.input_shape.length := by
    intro r hr
    rw [hdfeq, hdfval] at hr
    obtain ⟨tp, htp, rfl⟩ := List.mem_map.1 hr
    rw [tapRow_length]
    rw [← hk]
    exact ((cartesian_mem_iff _ _).1 htp).1
  have hdflen : t < p.data_field.length := by
    rw [hsldf, List.length_map] at ht
    rw [hdfeq]
    exact ht
  have hclen2 : coords.length = p.spec.kernel_shape.length := by rw [hps]; exact hclen
  -- the iterator takes the safe branch
  have hat : p.at_hint coords (some false)
      = some (safeItems p (mulStrides coords p.spec.strides)
          (((List.range p.op_strides_times_input_storage_strides.length).map
            fun i => p.op_strides_times_input_storage_strides.getD i 0
              * (coords.getD i 0 : Int)).sum)) := by
    rw [Patch.at_hint, if_pos hclen2]
    simp only [Option.getD_some]
    rw [if_neg (by simp : ¬ (false = true))]
  refine ⟨_, hat, by simp [safeItems], ?_⟩
  rw [safeItems_getD p _ _ ht]
  rw [safeItem]
  have hopslen : p.op_strides_times_input_storage_strides.length = spec.input_shape.length := by
    rw [hops, ops_length spec hs]
  -- the out-of-range tests coincide
  have hcond : ((List.range p.spec.input_shape.length).any fun ix =>
      decide (((mulStrides coords p.spec.strides).getD ix 0 : Int) +
          p.data_field.flatten.getD (t * p.spec.input_shape.length + ix) 0 < 0) ||
      decide (((mulStrides coords p.spec.strides).getD ix 0 : Int) +
          p.data_field.flatten.getD (t * p.spec.input_shape.length + ix) 0
            ≥ (p.spec.input_shape.getD ix 0 : Int)))
      = ((List.range spec.input_shape.length).any fun a =>
          decide ((coords.getD a 0 : Int) * (spec.strides.getD a 0 : Int)
              + (p.data_field.getD t []).getD a 0 < 0) ||
          decide ((coords.getD a 0 : Int) * (spec.strides.getD a 0 : Int)
              + (p.data_field.getD t []).getD a 0 ≥ (spec.input_shape.getD a 0 : Int))) := by
    rw [hps]
    apply any_congr
    intro a ha
    rw [List.mem_range] at ha
    have hflat : p.data_field.flatten.getD (t * spec.input_shape.length + a) 0
        = (p.data_field.getD t []).getD a 0 := by
      exact flatten_getD_uniform spec.input_shape.length 0 p.data_field hrowlen t
        hdflen a ha
    have hipc : ((mulStrides coords spec.strides).getD a 0 : Int)
        = (coords.getD a 0 : Int) * (spec.strides.getD a 0 : Int) := by
      rw [mulStrides_getD coords spec.strides (show a < coords.length by omega)]
      have hstr : spec.strides.getD a 1 = spec.strides.getD a 0 := by
        rw [List.getD_eq_getElem spec.strides 1 (show a < spec.strides.length by omega),
          List.getD_eq_getElem spec.strides 0 (show a < spec.strides.length by omega)]
      rw [hstr]
      push_cast
      ring
    rw [hflat, hipc]
  rw [hcond]
  -- the computed offsets coincide
  have hcenter : (((List.range p.op_strides_times_input_storage_strides.length).map
      fun i => p.op_strides_times_input_storage_strides.getD i 0
        * (coords.getD i 0 : Int)).sum)
      = ((List.range spec.input_shape.length).map fun a =>
          (coords.getD a 0 : Int) * p.op_strides_times_input_storage_strides.getD a 0).sum := by
    rw [hopslen]
    congr 1
    apply List.map_congr_left
    intro a _
    ring
  rw [hcenter]

/-- Witness for `C7_safe_iterator`: `patchA` at the boundary coordinate `[0]`,
tap 0 (whose absolute position -1 is out of range). -/
theorem C7_safe_iterator_witness :
    intoPatchWith specA dimsA = some patchA ∧
    (∃ items, patchA.at_hint [0] (some false) = some items ∧
      items.length = patchA.standard_layout_data_field.length ∧
      items.getD 0 none
        = if (List.range specA.input_shape.length).any (fun a =>
              decide ((([0].getD a 0 : Nat) : Int) * (specA.strides.getD a 0 : Int)
                  + (patchA.data_field.getD 0 []).getD a 0 < 0) ||
              decide ((([0].getD a 0 : Nat) : Int) * (specA.strides.getD a 0 : Int)
                  + (patchA.data_field.getD 0 []).getD a 0
                    ≥ (specA.input_shape.getD a 0 : Int)))
          then none
          else some (((List.range specA.input_shape.length).map fun a =>
              (([0].getD a 0 : Nat) : Int)
                * patchA.op_strides_times_input_storage_strides.getD a 0).sum
            + patchA.standard_layout_data_field.getD 0 0)) := by
  refine ⟨by decide, C7_safe_iterator specA dimsA patchA (by decide) (by decide) (by decide)
    (by decide) (by decide) [0] (by decide) 0 (by decide)⟩

/-! ### Built-patch facts and offset algebra -/

theorem built_kernel_pos {spec : PatchSpec} {dims : List CnnDim} {p : Patch}
    (hbuilt : intoPatchWith spec dims = some p)
    (hd : spec.kernel_shape.length ≤ spec.dilations.length)
    (hr : spec.kernel_shape.length ≤ dims.length) :
    ∀ x ∈ spec.kernel_shape, 1 ≤ x := by
  obtain ⟨df, dfmm, ax, hdf, hdfmm, hax, hpeq⟩ := intoPatchWith_inv hbuilt
  by_contra hcon
  push_neg at hcon
  obtain ⟨x, hx, hx0⟩ := hcon
  have hnil : cartesian spec.kernel_shape = [] :=
    (cartesian_eq_nil_iff _).2 ⟨x, hx, by omega⟩
  have heq := mkDataField_eq spec (dims.map (·.pad_before)) hd (by simpa using hr)
  rw [heq] at hdf
  have hdfnil : df = [] := by
    have h2 := Option.some.inj hdf
    rw [hnil] at h2
    simpa using h2.symm
  obtain ⟨n, hn⟩ : ∃ n, spec.kernel_shape.length = n + 1 := by
    cases hkl : spec.kernel_shape.length with
    | zero =>
      rw [List.length_eq_zero] at hkl
      rw [hkl] at hx
      cases hx
    | succ n => exact ⟨n, rfl⟩
  rw [hdfnil, hn, mkMinMax_pos_nil] at hdfmm
  cases hdfmm

theorem built_data_field {spec : PatchSpec} {dims : List CnnDim} {p : Patch}
    (hbuilt : intoPatchWith spec dims = some p)
    (hd : spec.kernel_shape.length ≤ spec.dilations.length)
    (hr : spec.kernel_shape.length ≤ dims.length) :
    p.data_field = (cartesian spec.kernel_shape).map (tapRow spec (dims.map (·.pad_before))) := by
  obtain ⟨df, dfmm, ax, hdf, hdfmm, hax, hpeq⟩ := intoPatchWith_inv hbuilt
  have heq := mkDataField_eq spec (dims.map (·.pad_before)) hd (by simpa using hr)
  rw [heq] at hdf
  have hdf2 : p.data_field = df := by rw [hpeq]
  rw [hdf2]
  exact (Option.some.inj hdf).symm

theorem built_min_max {spec : PatchSpec} {dims : List CnnDim} {p : Patch}
    (hbuilt : intoPatchWith spec dims = some p)
    (hd : spec.kernel_shape.length ≤ spec.dilations.length)
    (hr : spec.kernel_shape.length ≤ dims.length) :
    p.data_field_min_max = (List.range spec.kernel_shape.length).map fun ix =>
      (-(((dims.map (·.pad_before)).getD ix 0 : Nat) : Int),
        ((spec.kernel_shape.getD ix 0 - 1 : Nat) : Int) * (spec.dilations.getD ix 0 : Nat)
          - (((dims.map (·.pad_before)).getD ix 0 : Nat) : Int)) := by
  have hk1 := built_kernel_pos hbuilt hd hr
  obtain ⟨df, dfmm, ax, hdf, hdfmm, hax, hpeq⟩ := intoPatchWith_inv hbuilt
  have heq := mkDataField_eq spec (dims.map (·.pad_before)) hd (by simpa using hr)
  rw [heq] at hdf
  rw [(Option.some.inj hdf).symm] at hdfmm
  have heq2 := mkMinMax_eq spec (dims.map (·.pad_before)) hk1 hd (by simpa using hr)
  rw [heq2] at hdfmm
  have hdfmm2 : p.data_field_min_max = dfmm := by rw [hpeq]
  rw [hdfmm2]
  exact (Option.some.inj hdfmm).symm

theorem sum_range_add (f g : Nat → Int) :
    ∀ n : Nat, ((List.range n).map f).sum + ((List.range n).map g).sum
      = ((List.range n).map fun i => f i + g i).sum := by
  intro n
  induction n with
  | zero => simp
  | succ n ih =>
    rw [List.range_succ]
    simp only [List.map_append, List.sum_append, List.map_cons, List.map_nil,
      List.sum_cons, List.sum_nil]
    omega

theorem dot_eq_range : ∀ a b : List Int,
    dot a b = ((List.range (min a.length b.length)).map fun i => a.getD i 0 * b.getD i 0).sum := by
  intro a
  induction a with
  | nil => intro b; simp [dot]
  | cons x xs ih =>
    intro b
    cases b with
    | nil => simp [dot]
    | cons y ys =>
      rw [dot, List.zip_cons_cons, List.map_cons, List.sum_cons]
      have hmin : min (x :: xs).length (y :: ys).length = min xs.length ys.length + 1 := by
        simp only [List.length_cons]
        omega
      rw [hmin, List.range_succ_eq_map]
      simp only [List.map_cons, List.sum_cons, List.map_map]
      rw [← dot, ih]
      have hpt : ∀ i : Nat, ((fun i => (x :: xs).getD i 0 * (y :: ys).getD i 0) ∘ Nat.succ) i
          = xs.getD i 0 * ys.getD i 0 := by
        intro i
        simp [Function.comp]
      rw [show List.map ((fun i => (x :: xs).getD i 0 * (y :: ys).getD i 0) ∘ Nat.succ)
            (List.range (min xs.length ys.length))
          = List.map (fun i => xs.getD i 0 * ys.getD i 0) (List.range (min xs.length ys.length))
        from List.map_congr_left fun i _ => hpt i]
      simp

theorem zipNatInt_sum_eq_range : ∀ (c : List Nat) (ops : List Int),
    ((c.zip ops).map fun q => ((q.1 : Nat) : Int) * q.2).sum
      = ((List.range (min c.length ops.length)).map
          fun i => ((c.getD i 0 : Nat) : Int) * ops.getD i 0).sum := by
  intro c
  induction c with
  | nil => intro ops; simp
  | cons x xs ih =>
    intro ops
    cases ops with
    | nil => simp
    | cons y ys =>
      rw [List.zip_cons_cons, List.map_cons, List.sum_cons]
      have hmin : min (x :: xs).length (y :: ys).length = min xs.length ys.length + 1 := by
        simp only [List.length_cons]
        omega
      rw [hmin, List.range_succ_eq_map]
      simp only [List.map_cons, List.sum_cons, List.map_map]
      rw [ih]
      have hpt : ∀ i : Nat, ((fun i => ((x :: xs).getD i 0 : Int) * (y :: ys).getD i 0) ∘ Nat.succ) i
          = ((xs.getD i 0 : Nat) : Int) * ys.getD i 0 := by
        intro i
        simp [Function.comp]
      rw [show List.map ((fun i => ((x :: xs).getD i 0 : Int) * (y :: ys).getD i 0) ∘ Nat.succ)
            (List.range (min xs.length ys.length))
          = List.map (fun i => ((xs.getD i 0 : Nat) : Int) * ys.getD i 0)
              (List.range (min xs.length ys.length))
        from List.map_congr_left fun i _ => hpt i]
      simp

theorem layoutFold_nonneg :
    ∀ (l : List Nat) (acc : List Int), (∀ x ∈ acc, 0 ≤ x) →
      ∀ x ∈ l.foldl (fun acc d => Int.ofNat d * acc.headD 0 :: acc) acc, 0 ≤ x := by
  intro l
  induction l with
  | nil => intro acc h; exact h
  | cons a l ih =>
    intro acc h
    rw [List.foldl_cons]
    apply ih
    intro x hx
    rcases List.mem_cons.1 hx with rfl | hx2
    · have hh : 0 ≤ acc.headD 0 := by
        cases acc with
        | nil => simp
        | cons b bs => simpa using h b (List.mem_cons_self b bs)
      exact mul_nonneg (Int.ofNat_nonneg a) hh
    · exact h x hx2

theorem inputLayoutStrides_nonneg (spec : PatchSpec) :
    ∀ x ∈ inputLayoutStrides spec, 0 ≤ x := by
  rw [inputLayoutStrides]
  apply layoutFold_nonneg
  intro x hx
  rcases List.mem_singleton.1 hx with rfl
  exact Int.ofNat_nonneg _

theorem ops_getD (spec : PatchSpec) {i : Nat}
    (hi1 : i < spec.strides.length) (hi2 : i < (inputLayoutStrides spec).length) :
    (((spec.strides.zip (inputLayoutStrides spec)).map fun q => (q.1 : Int) * q.2).getD i 0)
      = ((spec.strides.getD i 0 : Nat) : Int) * (inputLayoutStrides spec).getD i 0 := by
  rw [map_getD _ _ (0, 0) _ (by rw [List.length_zip]; omega)]
  rw [List.getD_eq_getElem _ _ (by rw [List.length_zip]; omega), List.getElem_zip]
  rw [List.getD_eq_getElem spec.strides 0 hi1,
    List.getD_eq_getElem (inputLayoutStrides spec) 0 hi2]

/-- For a built patch, the flat offset `center + standard_layout_data_field[t]`
decomposes as the sum over axes of
`(c[a]*stride[a] + data_field[t][a]) * layout_stride[a]`. -/
theorem built_offset_decomp (spec : PatchSpec) (dims : List CnnDim) (p : Patch)
    (hbuilt : intoPatchWith spec dims = some p)
    (hk : spec.kernel_shape.length = spec.input_shape.length)
    (hs : spec.strides.length = spec.input_shape.length)
    (hd : spec.dilations.length = spec.input_shape.length)
    (hdims : dims.length = spec.input_shape.length)
    (coords : List Nat) (t : Nat) (ht : t < p.standard_layout_data_field.length) :
    (((List.range p.op_strides_times_input_storage_strides.length).map
        fun i => p.op_strides_times_input_storage_strides.getD i 0 * (coords.getD i 0 : Int)).sum
      + p.standard_layout_data_field.getD t 0)
    = ((List.range spec.input_shape.length).map fun i =>
        ((coords.getD i 0 : Int) * (spec.strides.getD i 0 : Int)
          + (p.data_field.getD t []).getD i 0) * (inputLayoutStrides spec).getD i 0).sum := by
  obtain ⟨df, dfmm, ax, hdf, hdfmm, hax, hpeq⟩ := intoPatchWith_inv hbuilt
  have hops : p.op_strides_times_input_storage_strides
      = (spec.strides.zip (inputLayoutStrides spec)).map fun q => (q.1 : Int) * q.2 := by
    rw [hpeq]
  have hdfeq : p.data_field = df := by rw [hpeq]
  have hsldf : p.standard_layout_data_field
      = df.map fun row => dot row (inputLayoutStrides spec) := by rw [hpeq]
  have hdfval : df = (cartesian spec.kernel_shape).map (tapRow spec (dims.map (·.pad_before))) := by
    have heq := mkDataField_eq spec (dims.map (·.pad_before)) (by omega) (by simp; omega)
    rw [heq] at hdf
    exact (Option.some.inj hdf).symm
  have hdflen : t < df.length := by
    rw [hsldf, List.length_map] at ht
    exact ht
  have hcartlen : t < (cartesian spec.kernel_shape).length := by
    rw [hdfval, List.length_map] at hdflen
    exact hdflen
  have hrow : p.data_field.getD t []
      = tapRow spec (dims.map (·.pad_before)) ((cartesian spec.kernel_shape).getD t []) := by
    rw [hdfeq, hdfval, map_getD _ _ [] _ hcartlen]
  have htpmem : (cartesian spec.kernel_shape).getD t [] ∈ cartesian spec.kernel_shape := by
    rw [List.getD_eq_getElem _ _ hcartlen]
    exact List.getElem_mem _
  have htplen : ((cartesian spec.kernel_shape).getD t []).length = spec.kernel_shape.length :=
    ((cartesian_mem_iff _ _).1 htpmem).1
  have hrowlen : (p.data_field.getD t []).length = spec.input_shape.length := by
    rw [hrow, tapRow_length, htplen, hk]
  have hL : (inputLayoutStrides spec).length = 1 + (spec.input_shape.length - 1) :=
    inputLayoutStrides_length spec
  have hopslen : p.op_strides_times_input_storage_strides.length = spec.input_shape.length := by
    rw [hops, ops_length spec hs]
  have hsldft : p.standard_layout_data_field.getD t 0
      = dot (p.data_field.getD t []) (inputLayoutStrides spec) := by
    rw [hsldf, map_getD _ _ [] _ hdflen, hdfeq]
  have hminrl : min (p.data_field.getD t []).length (inputLayoutStrides spec).length
      = spec.input_shape.length := by
    rw [hrowlen, hL]
    omega
  rw [hsldft, dot_eq_range, hminrl]
  have hcenter : ((List.range p.op_strides_times_input_storage_strides.length).map
      fun i => p.op_strides_times_input_storage_strides.getD i 0 * (coords.getD i 0 : Int)).sum
      = ((List.range spec.input_shape.length).map fun i =>
          ((coords.getD i 0 : Int) * (spec.strides.getD i 0 : Int))
            * (inputLayoutStrides spec).getD i 0).sum := by
    rw [hopslen]
    congr 1
    apply List.map_congr_left
    intro i hi
    rw [List.mem_range] at hi
    rw [hops, ops_getD spec (by omega) (by rw [hL]; omega)]
    ring
  rw [hcenter, sum_range_add]
  congr 1
  apply List.map_congr_left
  intro i _
  ring

/-- Shared tail for the `global_offset_for` agreement: given the value of the
yielded item and per-axis nonnegativity of the absolute tap positions, the
offset is nonnegative and `global_offset_for` reproduces it whenever it fits
in a `usize`. -/
theorem offset_agrees_aux (spec : PatchSpec) (dims : List CnnDim) (p : Patch)
    (hbuilt : intoPatchWith spec dims = some p)
    (hk : spec.kernel_shape.length = spec.input_shape.length)
    (hs : spec.strides.length = spec.input_shape.length)
    (hd : spec.dilations.length = spec.input_shape.length)
    (hdims : dims.length = spec.input_shape.length)
    (coords : List Nat) (t : Nat) (v : Int)
    (hcl : coords.length = p.spec.kernel_shape.length)
    (htlen : t < p.standard_layout_data_field.length)
    (hv : v = ((List.range p.op_strides_times_input_storage_strides.length).map
        fun i => p.op_strides_times_input_storage_strides.getD i 0 * (coords.getD i 0 : Int)).sum
      + p.standard_layout_data_field.getD t 0)
    (haxis : ∀ i < spec.input_shape.length,
        0 ≤ (coords.getD i 0 : Int) * (spec.strides.getD i 0 : Int)
          + (p.data_field.getD t []).getD i 0) :
    0 ≤ v ∧ (v < (W64 : Int) → p.global_offset_for coords t = some v.toNat) := by
  obtain ⟨df, dfmm, ax, hdf, hdfmm, hax, hpeq⟩ := intoPatchWith_inv hbuilt
  have hps : p.spec = spec := by rw [hpeq]
  have hops : p.op_strides_times_input_storage_strides
      = (spec.strides.zip (inputLayoutStrides spec)).map fun q => (q.1 : Int) * q.2 := by
    rw [hpeq]
  have hopslen : p.op_strides_times_input_storage_strides.length = spec.input_shape.length := by
    rw [hops, ops_length spec hs]
  have hdecomp := built_offset_decomp spec dims p hbuilt hk hs hd hdims coords t htlen
  have hvdec : v = ((List.range spec.input_shape.length).map fun i =>
      ((coords.getD i 0 : Int) * (spec.strides.getD i 0 : Int)
        + (p.data_field.getD t []).getD i 0) * (inputLayoutStrides spec).getD i 0).sum := by
    rw [hv]
    exact hdecomp
  have hnonneg : 0 ≤ v := by
    rw [hvdec]
    apply List.sum_nonneg
    intro x hx
    obtain ⟨i, hi, rfl⟩ := List.mem_map.1 hx
    rw [List.mem_range] at hi
    refine mul_nonneg (haxis i hi) ?_
    have hiL : i < (inputLayoutStrides spec).length := by
      rw [inputLayoutStrides_length]
      omega
    rw [List.getD_eq_getElem _ _ hiL]
    exact inputLayoutStrides_nonneg spec _ (List.getElem_mem _)
  refine ⟨hnonneg, fun hW => ?_⟩
  rw [Patch.global_offset_for, if_pos hcl]
  rw [List.getElem?_eq_getElem htlen]
  simp only [Option.bind_eq_bind, Option.some_bind, Option.pure_def]
  have hget2 : p.standard_layout_data_field[t] = p.standard_layout_data_field.getD t 0 := by
    rw [List.getD_eq_getElem _ _ htlen]
  have hc2 : ((coords.zip p.op_strides_times_input_storage_strides).map
      fun q => (q.1 : Int) * q.2).sum
      = ((List.range p.op_strides_times_input_storage_strides.length).map
        fun i => p.op_strides_times_input_storage_strides.getD i 0 * (coords.getD i 0 : Int)).sum := by
    rw [zipNatInt_sum_eq_range, hopslen]
    have hclen2 : coords.length = spec.input_shape.length := by
      rw [hps, hk] at hcl
      exact hcl
    rw [hclen2, Nat.min_self]
    congr 1
    apply List.map_congr_left
    intro i _
    ring
  rw [hc2, hget2, ← hv]
  have husz : usizeOfIsize v = v.toNat := by
    rw [usizeOfIsize, Int.emod_eq_of_lt hnonneg hW]
  rw [husz]

/-! ### C4 -/

/-- C4: for a built patch (ranks matching), whenever the iterator `at(c)`
yields a present item `some v` at tap index `t`, the value `v` is a
nonnegative flat offset and `global_offset_for(c, t)` returns exactly that
offset (as a `usize`, hence whenever `v` fits in 64 bits). -/
theorem C4_global_offset_agrees (spec : PatchSpec) (dims : List CnnDim) (p : Patch)
    (hbuilt : intoPatchWith spec dims = some p)
    (hk : spec.kernel_shape.length = spec.input_shape.length)
    (hs : spec.strides.length = spec.input_shape.length)
    (hd : spec.dilations.length = spec.input_shape.length)
    (hdims : dims.length = spec.input_shape.length)
    (coords : List Nat) (t : Nat) (items : List (Option Int)) (v : Int)
    (hat : p.at coords = some items)
    (hitem : items.getD t none = some v) :
    0 ≤ v ∧ (v < (W64 : Int) → p.global_offset_for coords t = some v.toNat) := by
  obtain ⟨df, dfmm, ax, hdf, hdfmm, hax, hpeq⟩ := intoPatchWith_inv hbuilt
  have hps : p.spec = spec := by rw [hpeq]
  have hdfeq : p.data_field = df := by rw [hpeq]
  have hsldf : p.standard_layout_data_field
      = df.map fun row => dot row (inputLayoutStrides spec) := by rw [hpeq]
  have hpadded : p.padded = (((dims.map (·.pad_before)).any fun x => decide (x ≠ 0))
      || ((dims.map (·.pad_after)).any fun x => decide (x ≠ 0))) := by rw [hpeq]
  have hdfval : df = (cartesian spec.kernel_shape).map (tapRow spec (dims.map (·.pad_before))) := by
    have heq := mkDataField_eq spec (dims.map (·.pad_before)) (by omega) (by simp; omega)
    rw [heq] at hdf
    exact (Option.some.inj hdf).symm
  rw [Patch.at, Patch.at_hint] at hat
  by_cases hcl : coords.length = p.spec.kernel_shape.length
  case neg =>
    rw [if_neg hcl] at hat
    cases hat
  rw [if_pos hcl] at hat
  simp only [Option.getD_none] at hat
  -- facts about the tap row, shared by both branches
  have hrowfacts : ∀ t, t < p.standard_layout_data_field.length →
      (p.data_field.getD t []
          = tapRow spec (dims.map (·.pad_before)) ((cartesian spec.kernel_shape).getD t [])
        ∧ ((cartesian spec.kernel_shape).getD t []).length = spec.kernel_shape.length
        ∧ t < p.data_field.length) := by
    intro t ht
    have hdflen : t < df.length := by
      rw [hsldf, List.length_map] at ht
      exact ht
    have hcartlen : t < (cartesian spec.kernel_shape).length := by
      rw [hdfval, List.length_map] at hdflen
      exact hdflen
    have htpmem : (cartesian spec.kernel_shape).getD t [] ∈ cartesian spec.kernel_shape := by
      rw [List.getD_eq_getElem _ _ hcartlen]
      exact List.getElem_mem _
    refine ⟨?_, ((cartesian_mem_iff _ _).1 htpmem).1, by rw [hdfeq]; exact hdflen⟩
    rw [hdfeq, hdfval, map_getD _ _ [] _ hcartlen]
  by_cases hvalid : (!p.padded || p.is_valid coords) = true
  · -- fast branch
    rw [if_pos hvalid] at hat
    have hitems : items = fastItems p (((List.range
        p.op_strides_times_input_storage_strides.length).map
          fun i => p.op_strides_times_input_storage_strides.getD i 0
            * (coords.getD i 0 : Int)).sum) := (Option.some.inj hat).symm
    have htlen : t < p.standard_layout_data_field.length := by
      by_contra hge
      push_neg at hge
      rw [hitems, fastItems] at hitem
      rw [List.getD_eq_default _ _ (by rw [List.length_map]; exact hge)] at hitem
      cases hitem
    obtain ⟨hrow, htplen, hdflen2⟩ := hrowfacts t htlen
    have hv : v = ((List.range p.op_strides_times_input_storage_strides.length).map
        fun i => p.op_strides_times_input_storage_strides.getD i 0 * (coords.getD i 0 : Int)).sum
      + p.standard_layout_data_field.getD t 0 := by
      rw [hitems, fastItems, map_getD _ _ 0 _ htlen] at hitem
      exact (Option.some.inj hitem).symm
    have haxis : ∀ i < spec.input_shape.length,
        0 ≤ (coords.getD i 0 : Int) * (spec.strides.getD i 0 : Int)
          + (p.data_field.getD t []).getD i 0 := by
      intro i hi
      rw [hrow, tapRow_getD spec _ _ (show i < _ by rw [htplen, hk]; omega)]
      simp only [Bool.or_eq_true, Bool.not_eq_true'] at hvalid
      rcases hvalid with hnp | hiv
      · -- not padded: all pad_before entries are zero
        rw [hpadded] at hnp
        simp only [Bool.or_eq_false_iff, List.any_eq_false, decide_eq_true_eq, ne_eq,
          not_not] at hnp
        have hpb0 : (dims.map (·.pad_before)).getD i 0 = 0 := by
          by_cases hlen : i < (dims.map (·.pad_before)).length
          · refine hnp.1 _ ?_
            rw [List.getD_eq_getElem _ _ hlen]
            exact List.getElem_mem _
          · exact List.getD_eq_default _ _ (by omega)
        rw [hpb0]
        have h1 : (0 : Int) ≤ (coords.getD i 0 : Int) * (spec.strides.getD i 0 : Int) := by
          positivity
        simp only [Nat.cast_zero, sub_zero]
        exact add_nonneg h1 (Int.ofNat_nonneg _)
      · -- is_valid branch: the per-axis lower test
        rw [Patch.is_valid, List.all_eq_true] at hiv
        have hmm := built_min_max hbuilt (show _ ≤ _ by omega) (show _ ≤ _ by omega)
        have hax2 := hiv i (by
          rw [List.mem_range, Patch.rank, hps]
          exact hi)
        simp only at hax2
        rw [hps, hmm, map_getD _ _ 0 _ (by rw [List.length_range]; omega),
          range_getD (show i < _ by omega)] at hax2
        simp only [Bool.not_eq_true', Bool.or_eq_false_iff, decide_eq_false_iff_not,
          not_lt, not_le] at hax2
        have hlow := hax2.1
        have h2 : (0 : Int) ≤ ((((cartesian spec.kernel_shape).getD t []).getD i 0
            * spec.dilations.getD i 0 : Nat) : Int) := Int.ofNat_nonneg _
        have h3 := hlow
        linarith [h3, h2]
    exact offset_agrees_aux spec dims p hbuilt hk hs hd hdims coords t v hcl htlen hv haxis
  · -- safe branch
    rw [if_neg hvalid] at hat
    have hitems : items = safeItems p (mulStrides coords p.spec.strides)
        (((List.range p.op_strides_times_input_storage_strides.length).map
          fun i => p.op_strides_times_input_storage_strides.getD i 0
            * (coords.getD i 0 : Int)).sum) := (Option.some.inj hat).symm
    have htlen : t < p.standard_layout_data_field.length := by
      by_contra hge
      push_neg at hge
      rw [hitems, safeItems] at hitem
      rw [List.getD_eq_default _ _ (by rw [List.length_map, List.length_range]; exact hge)] at hitem
      cases hitem
    obtain ⟨hrow, htplen, hdflen2⟩ := hrowfacts t htlen
    have hrowlenall : ∀ r ∈ p.data_field, r.length = spec.input_shape.length := by
      intro r hr
      rw [hdfeq, hdfval] at hr
      obtain ⟨tp, htp, rfl⟩ := List.mem_map.1 hr
      rw [tapRow_length, ← hk]
      exact ((cartesian_mem_iff _ _).1 htp).1
    rw [hitems, safeItems_getD p _ _ htlen, safeItem] at hitem
    split at hitem
    · cases hitem
    · rename_i hcond
      have hv : v = ((List.range p.op_strides_times_input_storage_strides.length).map
          fun i => p.op_strides_times_input_storage_strides.getD i 0
            * (coords.getD i 0 : Int)).sum
        + p.standard_layout_data_field.getD t 0 := by
        exact (Option.some.inj hitem).symm
      have haxis : ∀ i < spec.input_shape.length,
          0 ≤ (coords.getD i 0 : Int) * (spec.strides.getD i 0 : Int)
            + (p.data_field.getD t []).getD i 0 := by
        intro i hi
        by_contra hneg
        push_neg at hneg
        apply hcond
        rw [List.any_eq_true]
        refine ⟨i, by rw [List.mem_range, hps]; exact hi, ?_⟩
        have hflat : p.data_field.flatten.getD (t * p.spec.input_shape.length + i) 0
            = (p.data_field.getD t []).getD i 0 := by
          rw [hps]
          exact flatten_getD_uniform spec.input_shape.length 0 p.data_field hrowlenall t
            hdflen2 i hi
        have hipc : ((mulStrides coords p.spec.strides).getD i 0 : Int)
            = (coords.getD i 0 : Int) * (spec.strides.getD i 0 : Int) := by
          rw [hps]
          rw [mulStrides_getD coords spec.strides (show i < coords.length by
            rw [hcl, hps, hk]; omega)]
          have hstr : spec.strides.getD i 1 = spec.strides.getD i 0 := by
            rw [List.getD_eq_getElem spec.strides 1 (show i < spec.strides.length by omega),
              List.getD_eq_getElem spec.strides 0 (show i < spec.strides.length by omega)]
          rw [hstr]
          push_cast
          ring
        simp only [hflat, hipc]
        simp only [Bool.or_eq_true, decide_eq_true_eq]
        left
        exact hneg
      exact offset_agrees_aux spec dims p hbuilt hk hs hd hdims coords t v hcl htlen hv haxis

/-- Witness for `C4_global_offset_agrees`: `patchA` at the interior
coordinate `[1]`, tap 0, where `at` yields `some 0` and `global_offset_for`
returns offset 0. -/
theorem C4_global_offset_agrees_witness :
    0 ≤ (0 : Int) ∧ ((0 : Int) < (W64 : Int) →
      patchA.global_offset_for [1] 0 = some (Int.toNat 0)) := by
  refine C4_global_offset_agrees specA dimsA patchA (by decide) (by decide) (by decide)
    (by decide) (by decide) [1] 0 [some 0, some 1, some 2] 0 ?_ ?_ <;> decide

/-! ### C2 -/

/-- Modelled from the spec: length of the resolver's per-axis result. -/
theorem compute_length (pol : PaddingSpec) (input kernel dilations strides : List Nat) :
    (pol.compute input kernel dilations strides).length = input.length := by
  rw [PaddingSpec.compute]
  simp

/-- Modelled from the spec: if the resolver returns zero padding on an axis
whose output extent is nonzero, the last window fits inside the input:
`(output-1)*stride + (kernel-1)*dilation + 1 ≤ input`. -/
theorem computeOne_unpadded (pol : PaddingSpec) (ix input k d s : Nat)
    (hpb : (pol.computeOne ix input k d s).pad_before = 0)
    (hpa : (pol.computeOne ix input k d s).pad_after = 0)
    (hout : 1 ≤ (pol.computeOne ix input k d s).output) :
    ((pol.computeOne ix input k d s).output - 1) * s + (k - 1) * d + 1 ≤ input := by
  cases pol with
  | Valid =>
    simp only [PaddingSpec.computeOne] at hout ⊢
    by_cases hlt : input < (k - 1) * d + 1
    · rw [if_pos hlt] at hout
      omega
    · rw [if_neg hlt] at hout ⊢
      simp only [Nat.add_sub_cancel]
      obtain ⟨D, hD⟩ : ∃ D, (k - 1) * d = D := ⟨_, rfl⟩
      rw [hD] at hlt ⊢
      obtain ⟨B, hB⟩ : ∃ B, (input - (D + 1)) / s * s = B := ⟨_, rfl⟩
      rw [hB]
      have hdm := Nat.div_mul_le_self (input - (D + 1)) s
      rw [hB] at hdm
      omega
  | Explicit bef aft =>
    simp only [PaddingSpec.computeOne] at hpb hpa hout ⊢
    rw [hpb, hpa] at hout ⊢
    by_cases hlt : input + 0 + 0 < (k - 1) * d + 1
    · rw [if_pos hlt] at hout
      omega
    · rw [if_neg hlt] at hout ⊢
      simp only [Nat.add_sub_cancel]
      obtain ⟨D, hD⟩ : ∃ D, (k - 1) * d = D := ⟨_, rfl⟩
      rw [hD] at hlt ⊢
      obtain ⟨B, hB⟩ : ∃ B, (input + 0 + 0 - (D + 1)) / s * s = B := ⟨_, rfl⟩
      rw [hB]
      have hdm := Nat.div_mul_le_self (input + 0 + 0 - (D + 1)) s
      rw [hB] at hdm
      omega
  | SameUpper =>
    simp only [PaddingSpec.computeOne] at hpb hpa hout ⊢
    obtain ⟨D, hD⟩ : ∃ D, (k - 1) * d = D := ⟨_, rfl⟩
    rw [hD] at hpb hpa ⊢
    obtain ⟨O, hO⟩ : ∃ O, (input + s - 1) / s = O := ⟨_, rfl⟩
    rw [hO] at hpb hpa hout ⊢
    obtain ⟨P, hP⟩ : ∃ P, (O - 1) * s = P := ⟨_, rfl⟩
    rw [hP] at hpb hpa ⊢
    omega
  | SameLower =>
    simp only [PaddingSpec.computeOne] at hpb hpa hout ⊢
    obtain ⟨D, hD⟩ : ∃ D, (k - 1) * d = D := ⟨_, rfl⟩
    rw [hD] at hpb hpa ⊢
    obtain ⟨O, hO⟩ : ∃ O, (input + s - 1) / s = O := ⟨_, rfl⟩
    rw [hO] at hpb hpa hout ⊢
    obtain ⟨P, hP⟩ : ∃ P, (O - 1) * s = P := ⟨_, rfl⟩
    rw [hP] at hpb hpa ⊢
    omega

/-- A 1-D patch built through the modelled resolver: input length 5,
kernel 3, stride 1, dilation 1, "valid" padding (no pads, output 3). -/
def specB : PatchSpec :=
  { input_shape := [5], input_inner_stride := 1, output_inner_stride := 1,
    kernel_shape := [3], strides := [1], dilations := [1],
    padding := .Valid }

/-- The patch `specB.into_patch` produces. -/
def patchB : Patch :=
  { spec := specB, pad_before := [0], pad_after := [0], padded := false,
    output_shape := [3], data_field := [[0], [1], [2]],
    data_field_min_max := [(0, 2)], standard_layout_data_field := [0, 1, 2],
    op_strides_times_input_storage_strides := [1],
    valid_output_zone := [(0, 3)], invalid_output_zones := [] }

/-- C2: for a patch built through the (spec-modelled) geometry resolver and
any output coordinate on which the validity decision `!padded || is_valid(c)`
is true, the safe iterator (hint `some false`) yields exactly the same item
list as the fast iterator (hint `some true`), and no item is "no input
element" (`none`). -/
theorem C2_safe_equals_fast (spec : PatchSpec) (p : Patch)
    (hbuilt : spec.into_patch = some p)
    (hk : spec.kernel_shape.length = spec.input_shape.length)
    (hs : spec.strides.length = spec.input_shape.length)
    (hd : spec.dilations.length = spec.input_shape.length)
    (coords : List Nat)
    (hclen : coords.length = spec.kernel_shape.length)
    (hbox : inBox coords p.output_shape = true)
    (hdec : (!p.padded || p.is_valid coords) = true) :
    ∃ items, p.at_hint coords (some true) = some items ∧
      p.at_hint coords (some false) = some items ∧
      ∀ x ∈ items, x ≠ none := by
  rw [PatchSpec.into_patch] at hbuilt
  obtain ⟨dims, hdimseq⟩ : ∃ dims,
      spec.padding.compute spec.input_shape spec.kernel_shape spec.dilations spec.strides
        = dims := ⟨_, rfl⟩
  rw [hdimseq] at hbuilt
  have hdims : dims.length = spec.input_shape.length := by
    rw [← hdimseq, compute_length]
  obtain ⟨df, dfmm, ax, hdf, hdfmm, hax, hpeq⟩ := intoPatchWith_inv hbuilt
  have hps : p.spec = spec := by rw [hpeq]
  have hdfeq : p.data_field = df := by rw [hpeq]
  have hsldf : p.standard_layout_data_field
      = df.map fun row => dot row (inputLayoutStrides spec) := by rw [hpeq]
  have hpadded : p.padded = (((dims.map (·.pad_before)).any fun x => decide (x ≠ 0))
      || ((dims.map (·.pad_after)).any fun x => decide (x ≠ 0))) := by rw [hpeq]
  have houts : p.output_shape = dims.map (·.output) := by rw [hpeq]
  have hdfval : df = (cartesian spec.kernel_shape).map (tapRow spec (dims.map (·.pad_before))) := by
    have heq := mkDataField_eq spec (dims.map (·.pad_before)) (by omega) (by simp; omega)
    rw [heq] at hdf
    exact (Option.some.inj hdf).symm
  have hcl2 : coords.length = p.spec.kernel_shape.length := by
    rw [hps]
    exact hclen
  have hrowfacts : ∀ t, t < p.standard_layout_data_field.length →
      (p.data_field.getD t []
          = tapRow spec (dims.map (·.pad_before)) ((cartesian spec.kernel_shape).getD t [])
        ∧ (cartesian spec.kernel_shape).getD t [] ∈ cartesian spec.kernel_shape
        ∧ t < p.data_field.length) := by
    intro t ht
    have hdflen : t < df.length := by
      rw [hsldf, List.length_map] at ht
      exact ht
    have hcartlen : t < (cartesian spec.kernel_shape).length := by
      rw [hdfval, List.length_map] at hdflen
      exact hdflen
    have htpmem : (cartesian spec.kernel_shape).getD t [] ∈ cartesian spec.kernel_shape := by
      rw [List.getD_eq_getElem _ _ hcartlen]
      exact List.getElem_mem _
    refine ⟨?_, htpmem, by rw [hdfeq]; exact hdflen⟩
    rw [hdfeq, hdfval, map_getD _ _ [] _ hcartlen]
  have hrowlenall : ∀ r ∈ p.data_field, r.length = spec.input_shape.length := by
    intro r hr
    rw [hdfeq, hdfval] at hr
    obtain ⟨tp, htp, rfl⟩ := List.mem_map.1 hr
    rw [tapRow_length, ← hk]
    exact ((cartesian_mem_iff _ _).1 htp).1
  -- every tap of every item-yielding row is in range on every axis
  have hinr : ∀ t, t < p.standard_layout_data_field.length → ∀ i, i < spec.input_shape.length →
      0 ≤ (coords.getD i 0 : Int) * (spec.strides.getD i 0 : Int)
          + (p.data_field.getD t []).getD i 0
        ∧ (coords.getD i 0 : Int) * (spec.strides.getD i 0 : Int)
            + (p.data_field.getD t []).getD i 0 < (spec.input_shape.getD i 0 : Int) := by
    intro t ht i hi
    obtain ⟨hrow, htpmem, hdflen2⟩ := hrowfacts t ht
    have htplen : ((cartesian spec.kernel_shape).getD t []).length = spec.kernel_shape.length :=
      ((cartesian_mem_iff _ _).1 htpmem).1
    have htpbound : ((cartesian spec.kernel_shape).getD t []).getD i 0
        < spec.kernel_shape.getD i 0 :=
      ((cartesian_mem_iff _ _).1 htpmem).2 i (by omega)
    have htd : ((cartesian spec.kernel_shape).getD t []).getD i 0 * spec.dilations.getD i 0
        ≤ (spec.kernel_shape.getD i 0 - 1) * spec.dilations.getD i 0 :=
      Nat.mul_le_mul_right _ (by omega)
    rw [hrow, tapRow_getD spec _ _ (show i < _ by rw [htplen]; omega)]
    simp only [Bool.or_eq_true, Bool.not_eq_true'] at hdec
    rcases hdec with hnp | hiv
    · -- unpadded: the resolver guarantees the last window fits
      rw [hpadded] at hnp
      simp only [Bool.or_eq_false_iff, List.any_eq_false, decide_eq_true_eq, ne_eq,
        not_not] at hnp
      obtain ⟨cdim, hcdim⟩ : ∃ x, spec.padding.computeOne i (spec.input_shape.getD i 0)
          (spec.kernel_shape.getD i 0) (spec.dilations.getD i 0) (spec.strides.getD i 0)
            = x := ⟨_, rfl⟩
      have hdent : dims.getD i ⟨0, 0, 0⟩ = cdim := by
        rw [← hdimseq, PaddingSpec.compute,
          map_getD _ _ 0 _ (by rw [List.length_range]; exact hi), range_getD hi, hcdim]
      have hmapb : (dims.map (·.pad_before)).getD i 0 = (dims.getD i ⟨0, 0, 0⟩).pad_before :=
        map_getD _ _ ⟨0, 0, 0⟩ _ (by omega)
      have hmapa : (dims.map (·.pad_after)).getD i 0 = (dims.getD i ⟨0, 0, 0⟩).pad_after :=
        map_getD _ _ ⟨0, 0, 0⟩ _ (by omega)
      have hmapo : (dims.map (·.output)).getD i 0 = (dims.getD i ⟨0, 0, 0⟩).output :=
        map_getD _ _ ⟨0, 0, 0⟩ _ (by omega)
      have hpbi : (dims.map (·.pad_before)).getD i 0 = 0 := by
        by_cases hlen : i < (dims.map (·.pad_before)).length
        · refine hnp.1 _ ?_
          rw [List.getD_eq_getElem _ _ hlen]
          exact List.getElem_mem _
        · exact List.getD_eq_default _ _ (by omega)
      have hpai : (dims.map (·.pad_after)).getD i 0 = 0 := by
        by_cases hlen : i < (dims.map (·.pad_after)).length
        · refine hnp.2 _ ?_
          rw [List.getD_eq_getElem _ _ hlen]
          exact List.getElem_mem _
        · exact List.getD_eq_default _ _ (by omega)
      have hpb2 : cdim.pad_before = 0 := by
        rw [← hdent, ← hmapb]
        exact hpbi
      have hpa2 : cdim.pad_after = 0 := by
        rw [← hdent, ← hmapa]
        exact hpai
      have hobound := (inBox_iff coords p.output_shape).1 hbox
      have hoi : coords.getD i 0 < cdim.output := by
        have h2 := hobound.2 i (by rw [houts, List.length_map]; omega)
        rw [houts, hmapo, hdent] at h2
        exact h2
      have hgeo := computeOne_unpadded spec.padding i (spec.input_shape.getD i 0)
        (spec.kernel_shape.getD i 0) (spec.dilations.getD i 0) (spec.strides.getD i 0)
        (by rw [hcdim]; exact hpb2) (by rw [hcdim]; exact hpa2)
        (by rw [hcdim]; omega)
      rw [hcdim] at hgeo
      have hcs : coords.getD i 0 * spec.strides.getD i 0
          ≤ (cdim.output - 1) * spec.strides.getD i 0 :=
        Nat.mul_le_mul_right _ (by omega)
      have hnat : coords.getD i 0 * spec.strides.getD i 0
          + ((cartesian spec.kernel_shape).getD t []).getD i 0 * spec.dilations.getD i 0
          < spec.input_shape.getD i 0 := by
        linarith [hcs, htd, hgeo]
      rw [hpbi]
      simp only [Nat.cast_zero, sub_zero]
      constructor
      · have h1 : (0 : Int) ≤ (coords.getD i 0 : Int) * (spec.strides.getD i 0 : Int) := by
          positivity
        exact add_nonneg h1 (Int.ofNat_nonneg _)
      · exact_mod_cast hnat
    · -- is_valid: the per-axis test bounds every tap via the column min/max
      rw [Patch.is_valid, List.all_eq_true] at hiv
      have hmm := built_min_max hbuilt (show _ ≤ _ by omega) (show _ ≤ _ by omega)
      have hax2 := hiv i (by
        rw [List.mem_range, Patch.rank, hps]
        exact hi)
      simp only at hax2
      rw [hps, hmm, map_getD _ _ 0 _ (by rw [List.length_range]; omega),
        range_getD (show i < _ by omega)] at hax2
      simp only [Bool.not_eq_true', Bool.or_eq_false_iff, decide_eq_false_iff_not,
        not_lt, not_le] at hax2
      have htdz : ((((cartesian spec.kernel_shape).getD t []).getD i 0
            * spec.dilations.getD i 0 : Nat) : Int)
          ≤ ((spec.kernel_shape.getD i 0 - 1 : Nat) : Int)
            * ((spec.dilations.getD i 0 : Nat) : Int) :=
        le_trans (Int.ofNat_le.2 htd) (le_of_eq (Nat.cast_mul _ _))
      have h0 : (0 : Int) ≤ ((((cartesian spec.kernel_shape).getD t []).getD i 0
          * spec.dilations.getD i 0 : Nat) : Int) := Int.ofNat_nonneg _
      constructor
      · linarith [hax2.1, h0]
      · linarith [hax2.2, htdz]
  -- the two item lists coincide
  have heqlist : safeItems p (mulStrides coords p.spec.strides)
      (((List.range p.op_strides_times_input_storage_strides.length).map
        fun i => p.op_strides_times_input_storage_strides.getD i 0
          * (coords.getD i 0 : Int)).sum)
      = fastItems p (((List.range p.op_strides_times_input_storage_strides.length).map
        fun i => p.op_strides_times_input_storage_strides.getD i 0
          * (coords.getD i 0 : Int)).sum) := by
    apply List.ext_getElem
    · simp only [safeItems, fastItems, List.length_map, List.length_range]
    · intro t h1 h2
      have ht : t < p.standard_layout_data_field.length := by
        simp only [safeItems, List.length_map, List.length_range] at h1
        exact h1
      simp only [safeItems, fastItems, List.getElem_map, List.getElem_range]
      rw [safeItem]
      split
      · rename_i hcond
        exfalso
        rw [List.any_eq_true] at hcond
        obtain ⟨i, hmem, hbad⟩ := hcond
        rw [List.mem_range, hps] at hmem
        obtain ⟨hrow, htpmem, hdflen2⟩ := hrowfacts t ht
        have hflat : p.data_field.flatten.getD (t * p.spec.input_shape.length + i) 0
            = (p.data_field.getD t []).getD i 0 := by
          rw [hps]
          exact flatten_getD_uniform spec.input_shape.length 0 p.data_field hrowlenall t
            hdflen2 i hmem
        have hipc : ((mulStrides coords p.spec.strides).getD i 0 : Int)
            = (coords.getD i 0 : Int) * (spec.strides.getD i 0 : Int) := by
          rw [hps]
          rw [mulStrides_getD coords spec.strides (show i < coords.length by
            rw [hclen, hk]; omega)]
          have hstr : spec.strides.getD i 1 = spec.strides.getD i 0 := by
            rw [List.getD_eq_getElem spec.strides 1 (show i < spec.strides.length by omega),
              List.getD_eq_getElem spec.strides 0 (show i < spec.strides.length by omega)]
          rw [hstr]
          push_cast
          ring
        simp only [hflat, hipc] at hbad
        simp only [Bool.or_eq_true, decide_eq_true_eq] at hbad
        rcases hbad with hb | hb
        · exact absurd hb (not_lt.2 (hinr t ht i hmem).1)
        · rw [hps] at hb
          exact absurd hb (not_le.2 (hinr t ht i hmem).2)
      · rw [List.getD_eq_getElem _ _ ht]
  refine ⟨fastItems p (((List.range p.op_strides_times_input_storage_strides.length).map
      fun i => p.op_strides_times_input_storage_strides.getD i 0
        * (coords.getD i 0 : Int)).sum), ?_, ?_, ?_⟩
  · rw [Patch.at_hint, if_pos hcl2]
    simp only [Option.getD_some]
    split
    · rfl
    · rename_i hfalse
      exact absurd trivial hfalse
  · rw [Patch.at_hint, if_pos hcl2]
    simp only [Option.getD_some]
    rw [if_neg (by simp : ¬(false = true))]
    rw [heqlist]
  · intro x hx
    rw [fastItems] at hx
    obtain ⟨f, _, rfl⟩ := List.mem_map.1 hx
    simp

/-- Witness for `C2_safe_equals_fast`: `patchB` (valid padding, no pads) at
coordinate `[0]`, where the decision `!padded` is true and both iterators
yield `[some 0, some 1, some 2]`. -/
theorem C2_safe_equals_fast_witness :
    ∃ items, patchB.at_hint [0] (some true) = some items ∧
      patchB.at_hint [0] (some false) = some items ∧
      ∀ x ∈ items, x ≠ none :=
  C2_safe_equals_fast specB patchB (by decide) (by decide) (by decide) (by decide)
    [0] (by decide) (by decide) (by decide)

/-! ### C9 -/

theorem zipmap_getD {α β γ} (f : α × β → γ) (a : List α) (b : List β)
    (da : α) (db : β) (dc : γ) {i : Nat} (h1 : i < a.length) (h2 : i < b.length) :
    ((a.zip b).map f).getD i dc = f (a.getD i da, b.getD i db) := by
  rw [map_getD f _ (da, db) _ (by rw [List.length_zip]; omega)]
  rw [List.getD_eq_getElem _ _ (by rw [List.length_zip]; omega), List.getElem_zip]
  rw [List.getD_eq_getElem a da h1, List.getD_eq_getElem b db h2]

/-- Shifting two coordinates pointwise by the same zone starts preserves the
strict row-major order (provided the zone covers all axes). -/
theorem lexLt_shift : ∀ (c1 c2 : List Nat) (zone : List (Nat × Nat)),
    c1.length = c2.length → c1.length ≤ zone.length → lexLt c1 c2 = true →
    lexLt ((c1.zip zone).map fun p => p.1 + p.2.1)
      ((c2.zip zone).map fun p => p.1 + p.2.1) = true := by
  intro c1
  induction c1 with
  | nil =>
    intro c2 zone hlen _ hlt
    cases c2 with
    | nil => cases hlt
    | cons b bs => cases hlen
  | cons a as ih =>
    intro c2 zone hlen hle hlt
    cases c2 with
    | nil => cases hlen
    | cons b bs =>
      cases zone with
      | nil => simp at hle
      | cons z zs =>
        rw [List.zip_cons_cons, List.map_cons, List.zip_cons_cons, List.map_cons]
        simp only [lexLt, Bool.or_eq_true, decide_eq_true_eq, Bool.and_eq_true,
          beq_iff_eq] at hlt ⊢
        rcases hlt with h | ⟨heq, hrest⟩
        · left
          omega
        · right
          refine ⟨by omega, ?_⟩
          exact ih bs zs (by simpa using hlen) (by simp at hle ⊢; omega) hrest

/-- The spec's C9 scenario: 2x2 input, kernel `[2,1]`, "same, pad before"
policy, strides `[1,2]`. -/
def specC9 : PatchSpec :=
  { input_shape := [2, 2], input_inner_stride := 1, output_inner_stride := 1,
    kernel_shape := [2, 1], strides := [1, 2], dilations := [1, 1],
    padding := .SameLower }

/-- The patch `specC9.into_patch` produces. -/
def patchC9 : Patch :=
  { spec := specC9, pad_before := [1, 0], pad_after := [0, 0], padded := true,
    output_shape := [2, 1], data_field := [[-1, 0], [0, 0]],
    data_field_min_max := [(-1, 0), (0, 0)], standard_layout_data_field := [-2, 0],
    op_strides_times_input_storage_strides := [2, 2],
    valid_output_zone := [(1, 2), (0, 1)],
    invalid_output_zones := [[(0, 1), (0, 1)]] }

/-- C9: on a hyper-rectangular zone, `visit_zone_d` panics (the usize
subtraction of patches.rs line 218, modelled `none`) exactly when some range
is degenerate; on a well-formed zone it yields exactly the coordinates
inside the zone (each paired with the supplied hint), in strictly increasing
row-major (lexicographic) order — hence each exactly once.  `visit_all_d` is
the valid zone's visitation (hint `some true`) followed by the invalid
shells in list order (hint `some false`); in the spec's 2x2 "same, pad
before" scenario the combined visitation lists every output coordinate
exactly once. -/
theorem C9_visit_zone_row_major (zone : List (Nat × Nat)) (hint : Option Bool) :
    ((visit_zone_d zone hint).isSome = true ↔ ∀ z ∈ zone, z.1 ≤ z.2)
    ∧ ((∀ z ∈ zone, z.1 ≤ z.2) →
        ∃ items, visit_zone_d zone hint = some items
          ∧ (∀ c h, (c, h) ∈ items ↔ h = hint ∧ inZone c zone = true)
          ∧ (items.map Prod.fst).Pairwise (fun a b => lexLt a b = true))
    ∧ (∀ q : Patch, ∀ v iv, visit_valid_d q = some v → visit_invalid_d q = some iv →
        visit_all_d q = some (v ++ iv))
    ∧ specC9.into_patch = some patchC9
    ∧ visit_all_d patchC9 = some [([1, 0], some true), ([0, 0], some false)] := by
  have hshape : ∀ (hnd : ∀ z ∈ zone, z.1 ≤ z.2),
      (zone.mapM fun z => checkedSub z.2 z.1) = some (zone.map fun z => z.2 - z.1) := by
    intro hnd
    apply mapM_eq_some_map
    intro z hz
    rw [checkedSub, if_pos (hnd z hz)]
  have hiff : (visit_zone_d zone hint).isSome = true ↔ ∀ z ∈ zone, z.1 ≤ z.2 := by
    rw [visit_zone_d]
    cases hm : zone.mapM (fun z => checkedSub z.2 z.1) with
    | none =>
      simp only [Option.bind_eq_bind, Option.none_bind]
      constructor
      · intro h
        cases h
      · intro hall
        exfalso
        rw [hshape hall] at hm
        cases hm
    | some shape =>
      simp only [Option.bind_eq_bind, Option.some_bind, Option.pure_def]
      constructor
      · intro _
        intro z hz
        have h2 : (checkedSub z.2 z.1).isSome = true :=
          (mapM_isSome_iff _ zone).1 (by rw [hm]; rfl) z hz
        rw [checkedSub] at h2
        by_cases hle : z.1 ≤ z.2
        · exact hle
        · rw [if_neg hle] at h2
          cases h2
      · intro _
        rfl
  refine ⟨hiff, ?_, ?_, by decide, by decide⟩
  · intro hall
    refine ⟨(cartesian (zone.map fun z => z.2 - z.1)).map fun coords =>
        ((coords.zip zone).map fun p => p.1 + p.2.1, hint), ?_, ?_, ?_⟩
    · rw [visit_zone_d, hshape hall]
      rfl
    · intro c h
      rw [List.mem_map]
      constructor
      · rintro ⟨coords, hmem, heq⟩
        obtain ⟨hl, hb⟩ := (cartesian_mem_iff _ _).1 hmem
        rw [List.length_map] at hl
        injection heq with h1 h2
        refine ⟨h2.symm, ?_⟩
        rw [← h1, inZone_iff]
        constructor
        · rw [List.length_map, List.length_zip]
          omega
        · intro i hi
          rw [zipmap_getD _ _ _ 0 (0, 0) 0 (by omega) hi]
          have hbi := hb i (by rw [List.length_map]; exact hi)
          rw [map_getD _ _ (0, 0) _ hi] at hbi
          dsimp only at hbi ⊢
          omega
      · rintro ⟨rfl, hz⟩
        rw [inZone_iff] at hz
        obtain ⟨hl, hb⟩ := hz
        refine ⟨(c.zip zone).map fun p => p.1 - p.2.1, ?_, ?_⟩
        · rw [cartesian_mem_iff]
          constructor
          · rw [List.length_map, List.length_zip, List.length_map]
            omega
          · intro i hi
            rw [List.length_map] at hi
            rw [zipmap_getD _ _ _ 0 (0, 0) 0 (by omega) hi, map_getD _ _ (0, 0) _ hi]
            have hbi := hb i hi
            dsimp only
            omega
        · rw [Prod.mk.injEq]
          refine ⟨?_, rfl⟩
          apply List.ext_getElem
          · rw [List.length_map, List.length_zip, List.length_map, List.length_zip]
            omega
          · intro i hi1 hi2
            have hiz : i < zone.length := by omega
            rw [← List.getD_eq_getElem _ 0 hi1, ← List.getD_eq_getElem _ 0 hi2]
            rw [zipmap_getD _ _ _ 0 (0, 0) 0
              (by rw [List.length_map, List.length_zip]; omega) hiz]
            rw [zipmap_getD _ _ _ 0 (0, 0) 0 (by omega) hiz]
            have hbi := hb i hiz
            dsimp only
            omega
    · rw [List.map_map, List.pairwise_map]
      apply List.Pairwise.imp_of_mem ?_ (cartesian_pairwise _)
      intro a b ha hb hab
      have hla := ((cartesian_mem_iff _ _).1 ha).1
      have hlb := ((cartesian_mem_iff _ _).1 hb).1
      rw [List.length_map] at hla hlb
      simp only [Function.comp]
      exact lexLt_shift a b zone (by omega) (by omega) hab
  · intro q v iv hv hiv
    rw [visit_all_d, hv, hiv]
    rfl

/-- Witness for `C9_visit_zone_row_major`: the zone `[(1, 3)]` enumerates
`[1]` then `[2]`, and `patchC9`'s full visitation is its valid list followed
by its invalid list. -/
theorem C9_visit_zone_row_major_witness :
    (∃ items, visit_zone_d [(1, 3)] (some true) = some items
      ∧ (∀ c h, (c, h) ∈ items ↔ h = some true ∧ inZone c [(1, 3)] = true)
      ∧ (items.map Prod.fst).Pairwise (fun a b => lexLt a b = true))
    ∧ visit_all_d patchC9 = some ([([1, 0], some true)] ++ [([0, 0], some false)]) :=
  ⟨(C9_visit_zone_row_major [(1, 3)] (some true)).2.1 (by decide),
   (C9_visit_zone_row_major [] none).2.2.1 patchC9 [([1, 0], some true)]
     [([0, 0], some false)] (by decide) (by decide)⟩

/-! ### C1 -/

/-- C1, as stated, is false: for the valid window specification `specC1`
(all ranks equal, strides and dilations 1), the output coordinate `[0]` lies
inside the output index space but inside TWO elements of
`invalid_output_zones` (`tileCount = 2`, not 1). -/
theorem C1_counterexample :
    (PatchSpec.into_patch specC1).map (fun p => inBox [0] p.output_shape) = some true ∧
    (PatchSpec.into_patch specC1).map (fun p => tileCount p [0]) = some 2 ∧
    (PatchSpec.into_patch specC1).map (fun p => tileCount p [0]) ≠ some 1 := by
  refine ⟨by decide, by decide, by decide⟩

/-- C1 (amended): for every Patch built from a valid window specification
*whose per-axis valid range `[lower, upper)` is non-degenerate where it
matters (`lower ≤ upper`, or `upper ≥ output extent` so that no high shell is
emitted)*, every output coordinate lies in exactly one of the valid zone or
the invalid shells: the count of zones containing it is exactly 1. -/
theorem C1_zone_tiling (spec : PatchSpec) (dims : List CnnDim) (p : Patch)
    (hbuilt : intoPatchWith spec dims = some p)
    (hdims : dims.length = spec.input_shape.length)
    (hside : ∀ i < spec.input_shape.length,
      (p.valid_output_zone.getD i (0, 0)).1 ≤ (p.valid_output_zone.getD i (0, 0)).2 ∨
        p.output_shape.getD i 0 ≤ (p.valid_output_zone.getD i (0, 0)).2)
    (coords : List Nat)
    (hbox : inBox coords p.output_shape = true) :
    tileCount p coords = 1 := by
  obtain ⟨df, dfmm, ax, hdf, hdfmm, hax, hp⟩ := intoPatchWith_inv hbuilt
  have haxlen : ax.length = spec.input_shape.length := mkAxisData_length hax
  have hdrop : ((dims.map (·.output)).drop spec.input_shape.length) = [] := by
    apply List.drop_eq_nil_of_le
    simp [hdims]
  have hvz : p.valid_output_zone = ax.map fun t => (t.1, t.2.1) := by
    rw [hp]
    show (zoneFold _ ax [] []).1 = _
    rw [hdrop]
    simpa using zoneFold_fst _ ax [] []
  have hiz : p.invalid_output_zones = (zoneFold [] ax [] []).2 := by
    rw [hp]
    show (zoneFold _ ax [] []).2 = _
    rw [hdrop]
    simp
  have hout : p.output_shape = dims.map (·.output) := by rw [hp]
  -- the output extents are the third components of the axis data
  have houts : ax.map (fun t => t.2.2) = dims.map (·.output) := by
    apply List.ext_getElem (by simp [haxlen, hdims])
    intro i hi1 hi2
    have hi : i < spec.input_shape.length := by simpa [haxlen] using hi1
    obtain ⟨mm, s, sub, _, _, _, _, hout_i, _, _⟩ := mkAxisData_get hax i hi
    have hsome : (dims.map (·.output))[i]? = some (ax.getD i (0, 0, 0)).2.2 := hout_i
    rw [List.getElem?_eq_getElem hi2] at hsome
    have h2 := Option.some.inj hsome
    rw [List.getD_eq_getElem _ _ (by omega)] at h2
    rw [List.getElem_map]
    exact h2.symm
  have hsideax : ∀ t ∈ ax, t.1 ≤ t.2.1 ∨ t.2.2 ≤ t.2.1 := by
    intro t ht
    obtain ⟨i, hi, rfl⟩ := List.mem_iff_getElem.1 ht
    have hi' : i < spec.input_shape.length := by omega
    have hvzi : (p.valid_output_zone.getD i (0, 0)) = ((ax[i].1, ax[i].2.1) : Nat × Nat) := by
      rw [hvz, map_getD _ _ (0, 0, 0) _ (by omega), List.getD_eq_getElem _ _ hi]
    have houti : p.output_shape.getD i 0 = ax[i].2.2 := by
      rw [hout, ← houts, map_getD _ _ (0, 0, 0) _ (by omega), List.getD_eq_getElem _ _ hi]
    have := hside i hi'
    rw [hvzi, houti] at this
    simpa using this
  have hboxax : inBox coords (ax.map fun t => t.2.2) = true := by
    rw [houts, ← hout]
    exact hbox
  have hcount := zoneFold_count ax [] [] [] coords rfl hboxax hsideax
  simp only [List.nil_append, List.countP_nil, Nat.zero_add] at hcount
  have hnilzone : inZone [] ([] : List (Nat × Nat)) = true := by decide
  rw [hnilzone, if_pos rfl] at hcount
  rw [tileCount, hvz, hiz, hcount]
  by_cases hin : inZone coords (ax.map fun t => (t.1, t.2.1)) = true <;> simp [hin]

/-- Witness for `C1_zone_tiling`: the concrete patch `patchA` and the
boundary coordinate `[0]`. -/
theorem C1_zone_tiling_witness :
    intoPatchWith specA dimsA = some patchA ∧ tileCount patchA [0] = 1 :=
  ⟨by decide,
    C1_zone_tiling specA dimsA patchA (by decide) (by decide) (by decide) [0] (by decide)⟩

end Tract
